import Mathlib

/-!
Verification of the alert-evaluation core of the Stock-Price-Alerts
repository, as a shallow embedding in Lean.

Python floats are modelled as `Rat`, instants as integer seconds, and the
stateful `AlertManager` / `StockDatabase` objects as explicit state threaded
through pure functions.  Effects that the specification talks about (quote
fetches, database writes, notification dispatches, rate-limit sleeps,
retention cleanups) are recorded in an event trace.
-/

namespace StockAlerts

/-! ## Time model

A Python `datetime` in the configured local timezone.  `date` counts days
from a fixed Monday epoch (so `weekday = date % 7` follows Python's
Monday=0 .. Sunday=6 convention), `tod` is seconds since local midnight.
-/

structure PyDateTime where
  date : Nat
  tod : Nat
  deriving Repr, DecidableEq

def PyDateTime.weekday (t : PyDateTime) : Nat := t.date % 7

def PyDateTime.hour (t : PyDateTime) : Nat := t.tod / 3600

def PyDateTime.minute (t : PyDateTime) : Nat := t.tod % 3600 / 60

/-- The `HH:MM` pair produced by `now.strftime('%H:%M')`. -/
def PyDateTime.hhmm (t : PyDateTime) : Nat × Nat := (t.hour, t.minute)

/-- Absolute instant in seconds, used for database timestamp comparisons. -/
def PyDateTime.abs (t : PyDateTime) : Int := (t.date : Int) * 86400 + (t.tod : Int)

/-! ## Data model -/

/-- A normalized quote as produced by `StockAPI.get_quote`.  The
`latest_trading_day`, `open` and `previous_close` fields are never read by
the alert-evaluation core and are omitted. -/
structure Quote where
  symbol : String
  price : Rat
  change : Rat
  change_percent : String
  volume : Nat
  high : Rat
  low : Rat
  timestamp : Int
  deriving Repr, DecidableEq

/-- A persisted `stock_prices` row.  Columns other than `symbol`, `price`
and `timestamp` are stored by `save_quote` but never read back by the code
the claims are about, and are omitted. -/
structure StockPrice where
  symbol : String
  price : Rat
  timestamp : Int
  deriving Repr, DecidableEq

/-! ## Python `round` and `%.2f` formatting -/

/-- Round a rational to the nearest integer, ties to even
(the rounding mode of Python's builtin `round`). -/
def roundHalfEven (x : Rat) : Int :=
  let f := ⌊x⌋
  let r := x - f
  if r < 1/2 then f
  else if 1/2 < r then f + 1
  else if f % 2 = 0 then f else f + 1

/-- Python's `round(x, 2)`. -/
def pyRound2 (x : Rat) : Rat := ((roundHalfEven (x * 100) : Int) : Rat) / 100

/-- Python's `f"{x:.2f}"`: fixed two-decimal rendering, rounding ties to
even; a negative value carries a leading minus sign. -/
def formatFixed2 (x : Rat) : String :=
  let n := roundHalfEven (x * 100)
  let sign := if x < 0 then "-" else ""
  let m := n.natAbs
  let frac := m % 100
  sign ++ toString (m / 100) ++ "." ++
    (if frac < 10 then "0" ++ toString frac else toString frac)

/-- Split a reversed digit list into groups of three (least significant
digits first), for thousands grouping. -/
def chunk3 : List Char → List (List Char)
  | [] => []
  | [a] => [[a]]
  | [a, b] => [[a, b]]
  | a :: b :: c :: rest => [a, b, c] :: chunk3 rest

/-- Python's `f"{n:,}"` on a nonnegative integer: thousands-grouped
decimal rendering. -/
def commaGrouped (n : Nat) : String :=
  let chunks := chunk3 (toString n).data.reverse
  String.intercalate "," ((chunks.map (fun c => String.mk c.reverse)).reverse)

/-! ## Configuration

The configuration values the core reads, with `HH:MM` strings already
parsed to (hour, minute) pairs and the `open`/`close` market-hours strings
parsed to seconds since midnight (config loading is plumbing outside the
core; all schedule/market times in a well-formed config are `HH:MM`). -/

structure ScheduleItem where
  time : Nat × Nat
  message : String
  deriving Repr, DecidableEq

structure PriceAlertsConfig where
  enabled : Bool
  threshold_percentage : Rat
  check_interval : Nat
  deriving Repr, DecidableEq

structure MarketHoursConfig where
  only_during_market_hours : Bool
  openTod : Nat
  closeTod : Nat
  deriving Repr, DecidableEq

structure Config where
  watchlist : List String
  alert_schedule : List ScheduleItem
  price_alerts : PriceAlertsConfig
  market_hours : MarketHoursConfig
  api_delay : Nat
  retention_days : Nat
  include_volume : Bool
  include_day_high_low : Bool
  deriving Repr, DecidableEq

/-! ## StockDatabase

The SQLite table is modelled as the list of rows in insertion order. -/

/-- `StockDatabase.save_quote`: append one row built from the quote. -/
def save_quote (db : List StockPrice) (q : Quote) : List StockPrice :=
  db ++ [{ symbol := q.symbol, price := q.price, timestamp := q.timestamp }]

/-- The query `filter(symbol == s).order_by(timestamp.desc()).first()`:
the most recently persisted row for the symbol (on equal timestamps the
later-inserted row, i.e. the most recently persisted one, wins). -/
def latestRecord (db : List StockPrice) (s : String) : Option StockPrice :=
  (db.filter (fun r => r.symbol = s)).foldl
    (fun acc r =>
      match acc with
      | none => some r
      | some b => if b.timestamp ≤ r.timestamp then some r else some b)
    none

/-- The query `filter(symbol == s).filter(timestamp >= since)
.order_by(timestamp.asc()).first()`: the earliest persisted row for the
symbol at-or-after the cutoff (on equal timestamps the earlier-inserted
row wins). -/
def oldestSince (db : List StockPrice) (s : String) (since : Int) : Option StockPrice :=
  (db.filter (fun r => r.symbol = s ∧ since ≤ r.timestamp)).foldl
    (fun acc r =>
      match acc with
      | none => some r
      | some b => if r.timestamp < b.timestamp then some r else some b)
    none

/-- Declarative reading of the spec's `latest`: a persisted row for the
symbol that no other row for the symbol postdates. -/
def IsLatestFor (db : List StockPrice) (s : String) (l : StockPrice) : Prop :=
  l ∈ db ∧ l.symbol = s ∧ ∀ r ∈ db, r.symbol = s → r.timestamp ≤ l.timestamp

/-- Declarative reading of the spec's `oldest`: a persisted row for the
symbol with timestamp at-or-after the cutoff that no other such row
predates. -/
def IsOldestSince (db : List StockPrice) (s : String) (since : Int) (o : StockPrice) : Prop :=
  o ∈ db ∧ o.symbol = s ∧ since ≤ o.timestamp ∧
    ∀ r ∈ db, r.symbol = s → since ≤ r.timestamp → o.timestamp ≤ r.timestamp

/-- `StockDatabase.calculate_price_change`: percent change between the
most recent row and the earliest row inside the lookback window, rounded
to two decimals; `none` when either row is missing or the oldest price is
zero. -/
def calculate_price_change (db : List StockPrice) (s : String) (now : Int)
    (minutes : Nat) : Option Rat :=
  let since := now - (minutes : Int) * 60
  match latestRecord db s, oldestSince db s since with
  | some latest, some oldest =>
      if oldest.price = 0 then none
      else some (pyRound2 ((latest.price - oldest.price) / oldest.price * 100))
  | _, _ => none

/-- `StockDatabase.cleanup_old_data`: delete rows strictly older than the
retention cutoff; returns the surviving rows and the deletion count. -/
def cleanup_old_data (db : List StockPrice) (now : Int) (retention_days : Nat) :
    List StockPrice × Nat :=
  let cutoff := now - (retention_days : Int) * 86400
  let kept := db.filter (fun r => ¬ r.timestamp < cutoff)
  (kept, db.length - kept.length)

/-! ## AlertManager state, environment and event traces -/

/-- Dedup key of a price-delta firing:
`f"{symbol}_{now:%Y-%m-%d_%H}"`, i.e. symbol, calendar date and hour. -/
abbrev PriceKey := String × Nat × Nat

/-- Dedup key of a schedule firing: `f"{alert_time}_{now.date()}"`,
i.e. the rule's `HH:MM` and the calendar date. -/
abbrev SchedKey := (Nat × Nat) × Nat

/-- The mutable state of an `AlertManager`: the optional database and the
two dedup maps (only key membership is ever queried, so each map is the
list of recorded keys in insertion order). -/
structure AMState where
  db : Option (List StockPrice)
  last_scheduled_alerts : List SchedKey
  last_price_alerts : List PriceKey
  deriving Repr, DecidableEq

/-- Externally observable effects of a cycle, in program order. -/
inductive Event where
  | fetch (symbol : String)
  | save (row : StockPrice)
  | notify (message : String) (subject : String)
  | sleep (seconds : Nat)
  | cleanup (retention_days : Nat)
  deriving Repr, DecidableEq

/-- The quote source: `StockAPI.get_quote` returns a quote or `None`. -/
abbrev FetchEnv := String → Option Quote

/-! ## Message formatting -/

/-- `AlertManager.format_stock_message`. -/
def format_stock_message (cfg : Config) (q : Quote) (include_details : Bool) : String :=
  let message := q.symbol ++ ": $" ++ formatFixed2 q.price
  if include_details then
    let change_symbol := if 0 ≤ q.change then "+" else ""
    let m1 := message ++ " (" ++ change_symbol ++ "$" ++ formatFixed2 q.change ++
      ", " ++ change_symbol ++ q.change_percent ++ "%)"
    let m2 :=
      if cfg.include_volume ∧ q.volume ≠ 0 then
        m1 ++ " | Vol: " ++ commaGrouped q.volume
      else m1
    if cfg.include_day_high_low ∧ q.high ≠ 0 ∧ q.low ≠ 0 then
      m2 ++ " | H: $" ++ formatFixed2 q.high ++ " L: $" ++ formatFixed2 q.low
    else m2
  else message

/-! ## Market hours -/

/-- `AlertManager.is_market_hours`. -/
def is_market_hours (cfg : Config) (now : PyDateTime) : Bool :=
  if ¬ cfg.market_hours.only_during_market_hours then true
  else if 5 ≤ now.weekday then false
  else decide (cfg.market_hours.openTod ≤ now.tod ∧ now.tod ≤ cfg.market_hours.closeTod)

/-! ## Schedule evaluation -/

/-- The per-symbol body of `AlertManager._send_watchlist_alert`: fetch
each watchlist symbol in order, persist successes when a database is
configured, collect the per-symbol message lines, and sleep between
symbols (not after the last). -/
def send_loop (cfg : Config) (fetch : FetchEnv) :
    List String → Option (List StockPrice) →
    Option (List StockPrice) × List Event × List String
  | [], db => (db, [], [])
  | s :: rest, db =>
      let sleepEvs : List Event := if rest = [] then [] else [.sleep cfg.api_delay]
      match fetch s with
      | some q =>
          let saved : Option (List StockPrice) × List Event :=
            match db with
            | some d => (some (save_quote d q),
                [.save { symbol := q.symbol, price := q.price, timestamp := q.timestamp }])
            | none => (none, [])
          let line := format_stock_message cfg q true
          let next := send_loop cfg fetch rest saved.1
          (next.1, .fetch s :: saved.2 ++ sleepEvs ++ next.2.1, line :: next.2.2)
      | none =>
          let next := send_loop cfg fetch rest db
          (next.1, .fetch s :: sleepEvs ++ next.2.1,
            (s ++ ": Unable to fetch price") :: next.2.2)

/-- `AlertManager._send_watchlist_alert`: run the fetch loop and dispatch
the joined message as one notification (with the default subject). -/
def send_watchlist_alert (cfg : Config) (fetch : FetchEnv) (intro : String)
    (db : Option (List StockPrice)) : Option (List StockPrice) × List Event :=
  let r := send_loop cfg fetch cfg.watchlist db
  (r.1, r.2.1 ++ [.notify (String.intercalate "\n" (intro :: r.2.2)) "Stock Price Alert"])

/-- One iteration of the rule loop in `AlertManager.check_scheduled_alerts`. -/
def sched_iter (cfg : Config) (fetch : FetchEnv) (now : PyDateTime)
    (item : ScheduleItem) (st : AMState) : AMState × List Event :=
  if item.time = now.hhmm then
    if (item.time, now.date) ∈ st.last_scheduled_alerts then (st, [])
    else
      let r := send_watchlist_alert cfg fetch item.message st.db
      ({ st with
          db := r.1
          last_scheduled_alerts := st.last_scheduled_alerts ++ [(item.time, now.date)] },
        r.2)
  else (st, [])

/-- The rule loop of `AlertManager.check_scheduled_alerts`. -/
def sched_loop (cfg : Config) (fetch : FetchEnv) (now : PyDateTime) :
    List ScheduleItem → AMState → AMState × List Event
  | [], st => (st, [])
  | item :: rest, st =>
      let r1 := sched_iter cfg fetch now item st
      let r2 := sched_loop cfg fetch now rest r1.1
      (r2.1, r1.2 ++ r2.2)

/-- `AlertManager.check_scheduled_alerts`. -/
def check_scheduled_alerts (cfg : Config) (fetch : FetchEnv) (now : PyDateTime)
    (st : AMState) : AMState × List Event :=
  if cfg.watchlist = [] then (st, [])
  else sched_loop cfg fetch now cfg.alert_schedule st

/-! ## Price-delta evaluation -/

/-- The price-alert message built in `check_price_change_alerts`. -/
def price_alert_message (cfg : Config) (s : String) (pc : Rat) (q : Quote) : String :=
  let direction := if 0 < pc then "up" else "down"
  "🚨 PRICE ALERT 🚨\n" ++ s ++ " is " ++ direction ++ " " ++ formatFixed2 |pc| ++
    "% in the last " ++ toString cfg.price_alerts.check_interval ++ " minutes!\n" ++
    format_stock_message cfg q true

/-- One iteration of the symbol loop in `check_price_change_alerts`,
threading the database rows and the price-dedup keys.  Every `continue`
in the Python loop (fetch failure, no signal, hourly dedup) skips the
trailing rate-limit sleep as well. -/
def pca_iter (cfg : Config) (fetch : FetchEnv) (now : PyDateTime) (s : String)
    (d : List StockPrice) (last : List PriceKey) :
    List StockPrice × List PriceKey × List Event :=
  match fetch s with
  | none => (d, last, [.fetch s])
  | some q =>
      let d1 := save_quote d q
      let evs : List Event :=
        [.fetch s, .save { symbol := q.symbol, price := q.price, timestamp := q.timestamp }]
      match calculate_price_change d1 s now.abs cfg.price_alerts.check_interval with
      | none => (d1, last, evs)
      | some pc =>
          if cfg.price_alerts.threshold_percentage ≤ |pc| then
            let key : PriceKey := (s, now.date, now.hour)
            if key ∈ last then (d1, last, evs)
            else
              (d1, last ++ [key],
                evs ++ [.notify (price_alert_message cfg s pc q) ("Price Alert: " ++ s),
                  .sleep cfg.api_delay])
          else (d1, last, evs ++ [.sleep cfg.api_delay])

/-- The symbol loop of `check_price_change_alerts`. -/
def pca_loop (cfg : Config) (fetch : FetchEnv) (now : PyDateTime) :
    List String → List StockPrice → List PriceKey →
    List StockPrice × List PriceKey × List Event
  | [], d, last => (d, last, [])
  | s :: rest, d, last =>
      let r1 := pca_iter cfg fetch now s d last
      let r2 := pca_loop cfg fetch now rest r1.1 r1.2.1
      (r2.1, r2.2.1, r1.2.2 ++ r2.2.2)

/-- `AlertManager.check_price_change_alerts`. -/
def check_price_change_alerts (cfg : Config) (fetch : FetchEnv) (now : PyDateTime)
    (st : AMState) : AMState × List Event :=
  if ¬ cfg.price_alerts.enabled then (st, [])
  else if cfg.watchlist = [] then (st, [])
  else
    match st.db with
    | none => (st, [])
    | some d =>
        let r := pca_loop cfg fetch now cfg.watchlist d st.last_price_alerts
        ({ st with db := some r.1, last_price_alerts := r.2.1 }, r.2.2)

/-! ## Monitoring cycle -/

/-- The once-a-day-at-midnight cleanup step at the end of
`run_monitoring_cycle` (the code gates it only on `hour == 0 and
minute == 0`; there is no first-cycle-of-the-day bookkeeping). -/
def cleanup_step (cfg : Config) (now : PyDateTime) (st : AMState) : AMState × List Event :=
  match st.db with
  | none => (st, [])
  | some d =>
      if now.hour = 0 ∧ now.minute = 0 then
        ({ st with db := some (cleanup_old_data d now.abs cfg.retention_days).1 },
          [.cleanup cfg.retention_days])
      else (st, [])

/-- Result of one step inside the `try` block of `run_monitoring_cycle`:
the state reached, the events emitted, and the exception raised at that
point, if any. -/
structure StepResult where
  st : AMState
  trace : List Event
  exn : Option String
  deriving Repr

/-- The body of the `try` block of `run_monitoring_cycle`, over arbitrary
behaviours of the three steps: the market-hours early return, then
schedule evaluation, price-delta evaluation and retention cleanup in
order, an exception in one step aborting the later ones. -/
def cycle_body (gate : Bool) (sched price clean : AMState → StepResult)
    (st : AMState) : StepResult :=
  if gate then { st := st, trace := [], exn := none }
  else
    let r1 := sched st
    match r1.exn with
    | some e => { st := r1.st, trace := r1.trace, exn := some e }
    | none =>
        let r2 := price r1.st
        match r2.exn with
        | some e => { st := r2.st, trace := r1.trace ++ r2.trace, exn := some e }
        | none =>
            let r3 := clean r2.st
            { st := r3.st, trace := r1.trace ++ r2.trace ++ r3.trace, exn := r3.exn }

/-- `AlertManager.run_monitoring_cycle` over arbitrary step behaviours:
the top-level `except Exception` catches anything the body raised, logs
it, and the call returns normally with the state reached so far. -/
def run_monitoring_cycle_generic (gate : Bool) (sched price clean : AMState → StepResult)
    (st : AMState) : Except String (AMState × List Event) :=
  let r := cycle_body gate sched price clean st
  Except.ok (r.st, r.trace)

/-- A total step lifted into a `StepResult` (it raises nothing). -/
def liftStep (f : AMState → AMState × List Event) (st : AMState) : StepResult :=
  { st := (f st).1, trace := (f st).2, exn := none }

/-- The gate condition at the top of `run_monitoring_cycle`: skip the
cycle when market-hours gating is on and the instant is outside market
hours. -/
def market_gate (cfg : Config) (now : PyDateTime) : Bool :=
  cfg.market_hours.only_during_market_hours && ! is_market_hours cfg now

/-- `AlertManager.run_monitoring_cycle` with the concrete steps. -/
def run_monitoring_cycle (cfg : Config) (fetch : FetchEnv) (now : PyDateTime)
    (st : AMState) : Except String (AMState × List Event) :=
  run_monitoring_cycle_generic (market_gate cfg now)
    (liftStep (check_scheduled_alerts cfg fetch now))
    (liftStep (check_price_change_alerts cfg fetch now))
    (liftStep (cleanup_step cfg now))
    st

/-! ## Notifier -/

/-- The inputs `Notifier.notify` depends on: the two effective enabled
flags and the success of each channel's underlying `send`. -/
structure NotifyEnv where
  sms_enabled : Bool
  email_enabled : Bool
  sms_send : Bool
  email_send : Bool
  deriving Repr, DecidableEq

/-- What a call to `Notifier.notify` produces: the channels attempted in
order, the internal `sent_count`, whether the zero-channel warning was
logged, and the Python return value (an `Option Nat` models
`None`-or-int). -/
structure NotifyOutcome where
  attempts : List String
  sent_count : Nat
  warned : Bool
  ret : Option Nat
  deriving Repr, DecidableEq

/-- `Notifier.send_sms`. -/
def send_sms (env : NotifyEnv) : Bool :=
  if ¬ env.sms_enabled then false else env.sms_send

/-- `Notifier.send_email`. -/
def send_email (env : NotifyEnv) : Bool :=
  if ¬ env.email_enabled then false else env.email_send

/-- `Notifier.notify`: try SMS then email, counting successes; the
function body ends without a `return` statement, so the Python value
returned is `None`. -/
def notify (env : NotifyEnv) : NotifyOutcome :=
  let smsAttempts : List String := if env.sms_enabled then ["sms"] else []
  let c1 : Nat := if env.sms_enabled ∧ send_sms env then 1 else 0
  let emailAttempts : List String := if env.email_enabled then ["email"] else []
  let c2 : Nat := if env.email_enabled ∧ send_email env then 1 else 0
  { attempts := smsAttempts ++ emailAttempts
    sent_count := c1 + c2
    warned := c1 + c2 = 0
    ret := none }

/-! ## Trace counting helpers -/

/-- Number of price-delta notifications for symbol `s` in a trace
(`check_price_change_alerts` dispatches with subject
`f"Price Alert: {symbol}"`). -/
def priceNotifsFor (s : String) (tr : List Event) : Nat :=
  tr.countP (fun e =>
    match e with
    | .notify _ subject => subject = "Price Alert: " ++ s
    | _ => false)

/-- Number of notification dispatches of any kind in a trace. -/
def notifCount (tr : List Event) : Nat :=
  tr.countP (fun e => match e with | .notify _ _ => true | _ => false)

/-- Number of quote fetches in a trace. -/
def fetchCount (tr : List Event) : Nat :=
  tr.countP (fun e => match e with | .fetch _ => true | _ => false)

/-- Number of rate-limit sleeps in a trace. -/
def sleepCount (tr : List Event) : Nat :=
  tr.countP (fun e => match e with | .sleep _ => true | _ => false)

/-- Number of retention cleanups in a trace. -/
def cleanupCount (tr : List Event) : Nat :=
  tr.countP (fun e => match e with | .cleanup _ => true | _ => false)

/-! ## Repeated invocations

Sequences of calls to the two evaluation entry points, each call with its
own quote-source behaviour and instant, threading the manager state. -/

/-- Run a sequence of `check_price_change_alerts` invocations, returning
the final state and the per-call event traces. -/
def run_price_cycles (cfg : Config) :
    List (FetchEnv × PyDateTime) → AMState → AMState × List (List Event)
  | [], st => (st, [])
  | c :: rest, st =>
      let r1 := check_price_change_alerts cfg c.1 c.2 st
      let r2 := run_price_cycles cfg rest r1.1
      (r2.1, r1.2 :: r2.2)

/-- Run a sequence of `check_scheduled_alerts` invocations, returning the
final state and the per-call event traces. -/
def run_sched_cycles (cfg : Config) :
    List (FetchEnv × PyDateTime) → AMState → AMState × List (List Event)
  | [], st => (st, [])
  | c :: rest, st =>
      let r1 := check_scheduled_alerts cfg c.1 c.2 st
      let r2 := run_sched_cycles cfg rest r1.1
      (r2.1, r1.2 :: r2.2)

/-! ## Concrete instances used by witnesses and counterexamples -/

/-- A manager state with no database and empty dedup maps. -/
def stEmpty : AMState := ⟨none, [], []⟩

/-- A manager state with an empty database and empty dedup maps. -/
def stDbEmpty : AMState := ⟨some [], [], []⟩

/-- A quote source on which every fetch fails. -/
def fetchNone : FetchEnv := fun _ => none

/-- A configuration with market-hours gating on (09:30–16:00), used to
exercise the gating no-op. -/
def cfgGate : Config := {
  watchlist := ["AAPL"], alert_schedule := [⟨(9, 30), "Open"⟩],
  price_alerts := ⟨true, 5, 15⟩,
  market_hours := ⟨true, 34200, 57600⟩, api_delay := 12, retention_days := 90,
  include_volume := false, include_day_high_low := false }

/-- Saturday 10:00 local time (day 5 of the Monday-epoch calendar). -/
def tSaturday10 : PyDateTime := ⟨5, 36000⟩

/-- A weekday 08:00 local time. -/
def tMonday8 : PyDateTime := ⟨7, 28800⟩

/-- The quote of the formatting claim: `{symbol: "ABC", price: 10.5,
change: -0.25, change_percent: "-2.3"}`. -/
def qABC : Quote := {
  symbol := "ABC", price := 10.5, change := -0.25,
  change_percent := "-2.3", volume := 0, high := 0, low := 0, timestamp := 0 }

/-- A configuration with the volume and high/low detail flags off. -/
def cfgPlain : Config := {
  watchlist := ["ABC"], alert_schedule := [], price_alerts := ⟨false, 5, 15⟩,
  market_hours := ⟨false, 34200, 57600⟩, api_delay := 12, retention_days := 90,
  include_volume := false, include_day_high_low := false }

/-- The delta-correctness scenario: a config watching "X" with the given
price-change threshold and a 15-minute lookback. -/
def cfgX (threshold : Rat) : Config := {
  watchlist := ["X"], alert_schedule := [], price_alerts := ⟨true, threshold, 15⟩,
  market_hours := ⟨false, 34200, 57600⟩, api_delay := 12, retention_days := 90,
  include_volume := false, include_day_high_low := false }

/-- History for "X": one quote at price 100 persisted 10 minutes before
`nowX`. -/
def dbX : List StockPrice := [⟨"X", 100, 0⟩]

/-- The current quote for "X" at price 106. -/
def quoteX : Quote := {
  symbol := "X", price := 106, change := 6, change_percent := "6.0",
  volume := 0, high := 0, low := 0, timestamp := 600 }

/-- The instant of the delta-correctness scenario, 600 s after the
persisted history entry. -/
def nowX : PyDateTime := ⟨0, 600⟩

/-- A quote source returning `quoteX` for "X" and failing otherwise. -/
def fetchX : FetchEnv := fun s => if s = "X" then some quoteX else none

/-- The manager state holding the "X" history. -/
def stX : AMState := ⟨some dbX, [], []⟩

/-- A minimal storage-enabled configuration with no watchlist and no
schedule, used to isolate the retention-cleanup step. -/
def cfgStore : Config := {
  watchlist := [], alert_schedule := [], price_alerts := ⟨false, 5, 15⟩,
  market_hours := ⟨false, 34200, 57600⟩, api_delay := 12, retention_days := 90,
  include_volume := false, include_day_high_low := false }

/-- 00:00:10 local time on day 3. -/
def tMidnightA : PyDateTime := ⟨3, 10⟩

/-- 00:00:50 local time on day 3, a later cycle inside the same minute. -/
def tMidnightB : PyDateTime := ⟨3, 50⟩

/-- A price-alert configuration watching the single symbol "A". -/
def cfgA : Config := {
  watchlist := ["A"], alert_schedule := [], price_alerts := ⟨true, 5, 15⟩,
  market_hours := ⟨false, 34200, 57600⟩, api_delay := 12, retention_days := 90,
  include_volume := false, include_day_high_low := false }

/-- The scheduled-alert state reached after a successful evaluation at
clock `T` on date `dd`: either the watchlist is empty (the rule loop is
never entered) or every rule matching `T` has its dedup key recorded. -/
def SchedDone (cfg : Config) (T : Nat × Nat) (dd : Nat) (st : AMState) : Prop :=
  cfg.watchlist = [] ∨
    ∀ item ∈ cfg.alert_schedule, item.time = T →
      (item.time, dd) ∈ st.last_scheduled_alerts

/-- A configuration with one schedule rule at 00:09 watching "X". -/
def cfgSched : Config := {
  watchlist := ["X"], alert_schedule := [⟨(0, 9), "Daily update"⟩],
  price_alerts := ⟨false, 5, 15⟩, market_hours := ⟨false, 34200, 57600⟩,
  api_delay := 12, retention_days := 90,
  include_volume := false, include_day_high_low := false }

/-- 00:09:00 local time on day 2 (matching the `cfgSched` rule). -/
def tSched : PyDateTime := ⟨2, 540⟩

end StockAlerts

namespace StockAlerts

/-! # Supporting lemmas -/

/-- Rounding an integer-valued rational is the identity. -/
theorem roundHalfEven_intCast (n : Int) : roundHalfEven ((n : Int) : Rat) = n := by
  unfold roundHalfEven
  rw [Int.floor_intCast]
  norm_num

/-- `f"{10.5:.2f}"` renders as `"10.50"`. -/
theorem formatFixed2_price_abc : formatFixed2 (10.5 : Rat) = "10.50" := by
  unfold formatFixed2
  rw [show (10.5 : Rat) * 100 = ((1050 : Int) : Rat) by norm_num, roundHalfEven_intCast]
  rw [if_neg (by norm_num : ¬ (10.5 : Rat) < 0)]
  decide

/-- `f"{-0.25:.2f}"` renders as `"-0.25"`. -/
theorem formatFixed2_change_abc : formatFixed2 (-0.25 : Rat) = "-0.25" := by
  unfold formatFixed2
  rw [show (-0.25 : Rat) * 100 = ((-25 : Int) : Rat) by norm_num, roundHalfEven_intCast]
  rw [if_pos (by norm_num : (-0.25 : Rat) < 0)]
  decide

/-- Evaluation of `format_stock_message` on the formatting claim's quote. -/
theorem format_stock_message_eval :
    format_stock_message cfgPlain qABC true = "ABC: $10.50 ($-0.25, -2.3%)" := by
  simp only [format_stock_message, cfgPlain, qABC]
  rw [formatFixed2_price_abc, formatFixed2_change_abc,
    if_neg (by norm_num : ¬ (0 : Rat) ≤ (-0.25 : Rat))]
  decide

theorem foldl_latest_spec (l : List StockPrice) (b : StockPrice) :
    ∃ c, l.foldl (fun acc r =>
        match acc with
        | none => some r
        | some b => if b.timestamp ≤ r.timestamp then some r else some b) (some b) = some c ∧
      (c = b ∨ c ∈ l) ∧ b.timestamp ≤ c.timestamp ∧ ∀ r ∈ l, r.timestamp ≤ c.timestamp := by
  induction l generalizing b with
  | nil => exact ⟨b, rfl, Or.inl rfl, le_refl _, by simp⟩
  | cons r l ih =>
      rw [List.foldl_cons]
      by_cases h : b.timestamp ≤ r.timestamp
      · obtain ⟨c, hc, hmem, hle, hall⟩ := ih r
        refine ⟨c, ?_, ?_, le_trans h hle, ?_⟩
        · simpa [h] using hc
        · rcases hmem with rfl | hm
          · exact Or.inr (List.mem_cons_self _ _)
          · exact Or.inr (List.mem_cons_of_mem _ hm)
        · intro x hx
          rcases List.mem_cons.1 hx with rfl | hm
          · exact hle
          · exact hall x hm
      · obtain ⟨c, hc, hmem, hle, hall⟩ := ih b
        refine ⟨c, ?_, ?_, hle, ?_⟩
        · simpa [h] using hc
        · rcases hmem with rfl | hm
          · exact Or.inl rfl
          · exact Or.inr (List.mem_cons_of_mem _ hm)
        · intro x hx
          rcases List.mem_cons.1 hx with rfl | hm
          · exact le_trans (le_of_lt (lt_of_not_le h)) hle
          · exact hall x hm

theorem foldl_oldest_spec (l : List StockPrice) (b : StockPrice) :
    ∃ c, l.foldl (fun acc r =>
        match acc with
        | none => some r
        | some b => if r.timestamp < b.timestamp then some r else some b) (some b) = some c ∧
      (c = b ∨ c ∈ l) ∧ c.timestamp ≤ b.timestamp ∧ ∀ r ∈ l, c.timestamp ≤ r.timestamp := by
  induction l generalizing b with
  | nil => exact ⟨b, rfl, Or.inl rfl, le_refl _, by simp⟩
  | cons r l ih =>
      rw [List.foldl_cons]
      by_cases h : r.timestamp < b.timestamp
      · obtain ⟨c, hc, hmem, hle, hall⟩ := ih r
        refine ⟨c, ?_, ?_, le_trans hle (le_of_lt h), ?_⟩
        · simpa [h] using hc
        · rcases hmem with rfl | hm
          · exact Or.inr (List.mem_cons_self _ _)
          · exact Or.inr (List.mem_cons_of_mem _ hm)
        · intro x hx
          rcases List.mem_cons.1 hx with rfl | hm
          · exact hle
          · exact hall x hm
      · obtain ⟨c, hc, hmem, hle, hall⟩ := ih b
        refine ⟨c, ?_, ?_, hle, ?_⟩
        · simpa [h] using hc
        · rcases hmem with rfl | hm
          · exact Or.inl rfl
          · exact Or.inr (List.mem_cons_of_mem _ hm)
        · intro x hx
          rcases List.mem_cons.1 hx with rfl | hm
          · exact le_trans hle (le_of_not_lt h)
          · exact hall x hm

theorem latestRecord_some_spec (db : List StockPrice) (s : String) (c : StockPrice)
    (h : latestRecord db s = some c) : IsLatestFor db s c := by
  unfold latestRecord at h
  rcases hfl : db.filter (fun r => r.symbol = s) with _ | ⟨r0, tl⟩
  · rw [hfl] at h
    cases h
  · rw [hfl, List.foldl_cons] at h
    obtain ⟨c2, hc2, hmem, hle, hall⟩ := foldl_latest_spec tl r0
    have h2 : List.foldl (fun acc r =>
        match acc with
        | none => some r
        | some b => if b.timestamp ≤ r.timestamp then some r else some b)
          (some r0) tl = some c := h
    rw [hc2] at h2
    have hwc : c2 = c := Option.some.inj h2
    rw [hwc] at hmem hle hall
    have hcf : c ∈ db.filter (fun r => r.symbol = s) := by
      rw [hfl]
      rcases hmem with rfl | hm
      · exact List.mem_cons_self _ _
      · exact List.mem_cons_of_mem _ hm
    refine ⟨List.mem_of_mem_filter hcf, by simpa using List.of_mem_filter hcf, ?_⟩
    intro r hr hrs
    have hrf : r ∈ db.filter (fun r => r.symbol = s) :=
      List.mem_filter.2 ⟨hr, by simpa using hrs⟩
    rw [hfl] at hrf
    rcases List.mem_cons.1 hrf with rfl | hm
    · exact hle
    · exact hall r hm

theorem oldestSince_some_spec (db : List StockPrice) (s : String) (since : Int)
    (c : StockPrice) (h : oldestSince db s since = some c) : IsOldestSince db s since c := by
  unfold oldestSince at h
  rcases hfl : db.filter (fun r => r.symbol = s ∧ since ≤ r.timestamp) with _ | ⟨r0, tl⟩
  · rw [hfl] at h
    cases h
  · rw [hfl, List.foldl_cons] at h
    obtain ⟨c2, hc2, hmem, hle, hall⟩ := foldl_oldest_spec tl r0
    have h2 : List.foldl (fun acc r =>
        match acc with
        | none => some r
        | some b => if r.timestamp < b.timestamp then some r else some b)
          (some r0) tl = some c := h
    rw [hc2] at h2
    have hwc : c2 = c := Option.some.inj h2
    rw [hwc] at hmem hle hall
    have hcf : c ∈ db.filter (fun r => r.symbol = s ∧ since ≤ r.timestamp) := by
      rw [hfl]
      rcases hmem with rfl | hm
      · exact List.mem_cons_self _ _
      · exact List.mem_cons_of_mem _ hm
    have hprop := List.of_mem_filter hcf
    simp only [decide_eq_true_eq] at hprop
    refine ⟨List.mem_of_mem_filter hcf, hprop.1, hprop.2, ?_⟩
    intro r hr hrs hrsince
    have hrf : r ∈ db.filter (fun r => r.symbol = s ∧ since ≤ r.timestamp) :=
      List.mem_filter.2 ⟨hr, by simp [hrs, hrsince]⟩
    rw [hfl] at hrf
    rcases List.mem_cons.1 hrf with rfl | hm
    · exact hle
    · exact hall r hm

theorem latestRecord_exists (db : List StockPrice) (s : String) (r0 : StockPrice)
    (h : r0 ∈ db) (hs : r0.symbol = s) : ∃ c, latestRecord db s = some c := by
  unfold latestRecord
  have hm : r0 ∈ db.filter (fun r => r.symbol = s) :=
    List.mem_filter.2 ⟨h, by simpa using hs⟩
  rcases hfl : db.filter (fun r => r.symbol = s) with _ | ⟨r1, tl⟩
  · rw [hfl] at hm
    cases hm
  · rw [hfl, List.foldl_cons]
    obtain ⟨c2, hc2, -, -, -⟩ := foldl_latest_spec tl r1
    exact ⟨c2, hc2⟩

theorem oldestSince_exists (db : List StockPrice) (s : String) (since : Int)
    (r0 : StockPrice) (h : r0 ∈ db) (hs : r0.symbol = s) (hsince : since ≤ r0.timestamp) :
    ∃ c, oldestSince db s since = some c := by
  unfold oldestSince
  have hm : r0 ∈ db.filter (fun r => r.symbol = s ∧ since ≤ r.timestamp) :=
    List.mem_filter.2 ⟨h, by simp [hs, hsince]⟩
  rcases hfl : db.filter (fun r => r.symbol = s ∧ since ≤ r.timestamp) with _ | ⟨r1, tl⟩
  · rw [hfl] at hm
    cases hm
  · rw [hfl, List.foldl_cons]
    obtain ⟨c2, hc2, -, -, -⟩ := foldl_oldest_spec tl r1
    exact ⟨c2, hc2⟩

theorem eq_of_distinct_ts (db : List StockPrice) (s : String)
    (hp : (db.filter (fun r => r.symbol = s)).Pairwise
      (fun a b => a.timestamp ≠ b.timestamp))
    (a b : StockPrice) (ha : a ∈ db) (hsa : a.symbol = s) (hb : b ∈ db)
    (hsb : b.symbol = s) (hts : a.timestamp = b.timestamp) : a = b := by
  by_contra hne
  exact List.Pairwise.forall (fun _ _ h => h.symm) hp
    (List.mem_filter.2 ⟨ha, by simpa using hsa⟩)
    (List.mem_filter.2 ⟨hb, by simpa using hsb⟩) hne hts

theorem pyRound2_intCast (n : Int) : pyRound2 ((n : Int) : Rat) = ((n : Int) : Rat) := by
  unfold pyRound2
  rw [show ((n : Int) : Rat) * 100 = (((100 * n : Int) : Int) : Rat) by push_cast; ring,
    roundHalfEven_intCast]
  push_cast
  rw [mul_comm]
  exact mul_div_cancel_right₀ _ (by norm_num)

theorem calcX_eval :
    calculate_price_change (save_quote dbX quoteX) "X" nowX.abs 15 = some 6 := by
  have hl : latestRecord (save_quote dbX quoteX) "X" = some ⟨"X", 106, 600⟩ := rfl
  have ho : oldestSince (save_quote dbX quoteX) "X" (nowX.abs - ((15 : Nat) : Int) * 60) =
      some ⟨"X", 100, 0⟩ := rfl
  simp only [calculate_price_change, hl, ho]
  rw [if_neg (by norm_num : ¬ ((100 : Rat) = 0))]
  rw [show ((106 : Rat) - 100) / 100 * 100 = ((6 : Int) : Rat) by norm_num, pyRound2_intCast]
  norm_num

theorem pcaX_trace_5 :
    priceNotifsFor "X" (check_price_change_alerts (cfgX 5) fetchX nowX stX).2 = 1 := by
  simp only [check_price_change_alerts, cfgX, stX, pca_loop, pca_iter, fetchX]
  norm_num [calcX_eval]
  simp [priceNotifsFor]

theorem pcaX_trace_7 :
    priceNotifsFor "X" (check_price_change_alerts (cfgX 7) fetchX nowX stX).2 = 0 := by
  simp only [check_price_change_alerts, cfgX, stX, pca_loop, pca_iter, fetchX]
  norm_num [calcX_eval]
  simp [priceNotifsFor]

/-- String concatenation is left-cancellative. -/
theorem string_append_right_inj (a b c : String) : a ++ b = a ++ c ↔ b = c := by
  constructor
  · intro h
    have hd := congrArg String.data h
    simp only [String.data_append] at hd
    exact String.ext (List.append_cancel_left hd)
  · intro h
    rw [h]

/-- One price-loop iteration: the dedup keys only grow, and a dispatch for
symbol `s0` is possible only by moving the key for the current hour from
unrecorded to recorded. -/
theorem pca_iter_key (cfg : Config) (fetch : FetchEnv) (now : PyDateTime)
    (s0 s : String) (d : List StockPrice) (last : List PriceKey) :
    (∃ tl, (pca_iter cfg fetch now s d last).2.1 = last ++ tl) ∧
    priceNotifsFor s0 (pca_iter cfg fetch now s d last).2.2 +
      (if (s0, now.date, now.hour) ∈ last then 1 else 0) ≤
      (if (s0, now.date, now.hour) ∈ (pca_iter cfg fetch now s d last).2.1 then 1
       else 0) := by
  unfold pca_iter
  cases hq : fetch s with
  | none => exact ⟨⟨[], by simp⟩, by simp [priceNotifsFor]⟩
  | some q =>
      cases hc : calculate_price_change (save_quote d q) s now.abs
          cfg.price_alerts.check_interval with
      | none => exact ⟨⟨[], by simp [hc]⟩, by simp [hc, priceNotifsFor]⟩
      | some pc =>
          by_cases hth : cfg.price_alerts.threshold_percentage ≤ |pc|
          · by_cases hkey : ((s, now.date, now.hour) : PriceKey) ∈ last
            · exact ⟨⟨[], by simp [hc, hth, hkey]⟩,
                by simp [hc, hth, hkey, priceNotifsFor]⟩
            · refine ⟨⟨[(s, now.date, now.hour)], by simp [hc, hth, hkey]⟩, ?_⟩
              by_cases hs : s0 = s
              · subst hs
                simp [hc, hth, hkey, priceNotifsFor, List.countP_append,
                  List.countP_cons]
              · have hne : ¬ ("Price Alert: " ++ s = "Price Alert: " ++ s0) := by
                  rw [string_append_right_inj]
                  exact fun h => hs h.symm
                by_cases hk0 : ((s0, now.date, now.hour) : PriceKey) ∈ last
                · simp [hc, hth, hkey, hk0, priceNotifsFor, List.countP_append,
                    List.countP_cons, List.mem_append, hne]
                · simp [hc, hth, hkey, hk0, priceNotifsFor, List.countP_append,
                    List.countP_cons, List.mem_append, hne, hs]
          · exact ⟨⟨[], by simp [hc, hth]⟩,
              by simp [hc, hth, priceNotifsFor, List.countP_append, List.countP_cons]⟩

/-- The price loop over a watchlist preserves the per-key dispatch bound. -/
theorem pca_loop_key (cfg : Config) (fetch : FetchEnv) (now : PyDateTime) (s0 : String) :
    ∀ (ws : List String) (d : List StockPrice) (last : List PriceKey),
    (∃ tl, (pca_loop cfg fetch now ws d last).2.1 = last ++ tl) ∧
    priceNotifsFor s0 (pca_loop cfg fetch now ws d last).2.2 +
      (if (s0, now.date, now.hour) ∈ last then 1 else 0) ≤
      (if (s0, now.date, now.hour) ∈ (pca_loop cfg fetch now ws d last).2.1 then 1
       else 0)
  | [], d, last => ⟨⟨[], by simp [pca_loop]⟩, by simp [pca_loop, priceNotifsFor]⟩
  | s :: rest, d, last => by
      obtain ⟨⟨tl1, htl1⟩, h1⟩ := pca_iter_key cfg fetch now s0 s d last
      obtain ⟨⟨tl2, htl2⟩, h2⟩ :=
        pca_loop_key cfg fetch now s0 rest (pca_iter cfg fetch now s d last).1
          (pca_iter cfg fetch now s d last).2.1
      constructor
      · refine ⟨tl1 ++ tl2, ?_⟩
        simp only [pca_loop]
        rw [htl2, htl1, List.append_assoc]
      · simp only [pca_loop, priceNotifsFor, List.countP_append] at *
        omega

/-- One `check_price_change_alerts` call preserves the per-key dispatch
bound. -/
theorem pca_call_key (cfg : Config) (fetch : FetchEnv) (now : PyDateTime)
    (st : AMState) (s0 : String) :
    (∃ tl, (check_price_change_alerts cfg fetch now st).1.last_price_alerts =
      st.last_price_alerts ++ tl) ∧
    priceNotifsFor s0 (check_price_change_alerts cfg fetch now st).2 +
      (if (s0, now.date, now.hour) ∈ st.last_price_alerts then 1 else 0) ≤
      (if (s0, now.date, now.hour) ∈
          (check_price_change_alerts cfg fetch now st).1.last_price_alerts then 1
       else 0) := by
  unfold check_price_change_alerts
  cases he : cfg.price_alerts.enabled with
  | false => exact ⟨⟨[], by simp⟩, by simp [priceNotifsFor]⟩
  | true =>
      by_cases hwl : cfg.watchlist = []
      · exact ⟨⟨[], by simp [hwl]⟩, by simp [hwl, priceNotifsFor]⟩
      · cases hdb : st.db with
        | none => exact ⟨⟨[], by simp [hwl, hdb]⟩, by simp [hwl, hdb, priceNotifsFor]⟩
        | some d =>
            obtain ⟨⟨tl, htl⟩, h⟩ :=
              pca_loop_key cfg fetch now s0 cfg.watchlist d st.last_price_alerts
            refine ⟨⟨tl, ?_⟩, ?_⟩
            · simp [hwl, hdb, htl]
            · simpa [hwl, hdb] using h

/-- Across a sequence of calls within one calendar (date, hour), dispatches
for a symbol are bounded by the key's transition from unrecorded to
recorded. -/
theorem run_price_cycles_key (cfg : Config) (s : String) (dd hh : Nat) :
    ∀ (calls : List (FetchEnv × PyDateTime)) (st : AMState),
    (∀ c ∈ calls, (c.2 : PyDateTime).date = dd ∧ c.2.hour = hh) →
    priceNotifsFor s (run_price_cycles cfg calls st).2.flatten +
      (if (s, dd, hh) ∈ st.last_price_alerts then 1 else 0) ≤
      (if (s, dd, hh) ∈ (run_price_cycles cfg calls st).1.last_price_alerts then 1
       else 0)
  | [], st, _ => by simp [run_price_cycles, priceNotifsFor]
  | c :: rest, st, h => by
      obtain ⟨hd, hh2⟩ := h c (List.mem_cons_self _ _)
      have h1 := (pca_call_key cfg c.1 c.2 st s).2
      rw [hd, hh2] at h1
      have h2 := run_price_cycles_key cfg s dd hh rest
        (check_price_change_alerts cfg c.1 c.2 st).1
        (fun x hx => h x (List.mem_cons_of_mem _ hx))
      simp only [run_price_cycles, List.flatten_cons, priceNotifsFor,
        List.countP_append] at *
      omega

/-- The empty trace has no notifications. -/
theorem notifCount_nil : notifCount ([] : List Event) = 0 := rfl

/-- Notification counting distributes over trace concatenation. -/
theorem notifCount_append (a b : List Event) :
    notifCount (a ++ b) = notifCount a + notifCount b :=
  List.countP_append _ _ _

/-- Notification counting over one prepended event. -/
theorem notifCount_cons (e : Event) (tr : List Event) :
    notifCount (e :: tr) =
      notifCount tr + (match e with | .notify _ _ => 1 | _ => 0) := by
  cases e <;> simp [notifCount, List.countP_cons]

/-- The watchlist fetch loop itself dispatches nothing. -/
theorem send_loop_notifCount (cfg : Config) (fetch : FetchEnv) :
    ∀ (ws : List String) (db : Option (List StockPrice)),
    notifCount (send_loop cfg fetch ws db).2.1 = 0
  | [], _ => rfl
  | s :: rest, db => by
      have ihs : ∀ d2, notifCount (send_loop cfg fetch rest d2).2.1 = 0 :=
        fun d2 => send_loop_notifCount cfg fetch rest d2
      have ih0 : ∀ d2, notifCount (send_loop cfg fetch [] d2).2.1 = 0 := fun _ => rfl
      unfold send_loop
      cases hq : fetch s with
      | none =>
          by_cases hr : rest = [] <;>
            simp [hq, hr, notifCount_cons, notifCount_append, notifCount_nil, ihs, ih0]
      | some q =>
          cases db <;> by_cases hr : rest = [] <;>
            simp [hq, hr, notifCount_cons, notifCount_append, notifCount_nil, ihs, ih0]

/-- A watchlist alert dispatches exactly one combined notification. -/
theorem send_watchlist_alert_notifCount (cfg : Config) (fetch : FetchEnv)
    (intro : String) (db : Option (List StockPrice)) :
    notifCount (send_watchlist_alert cfg fetch intro db).2 = 1 := by
  unfold send_watchlist_alert
  rw [notifCount_append, send_loop_notifCount, notifCount_cons]
  rfl

/-- One schedule-rule iteration: keys only grow and a dispatch moves the
current (time, date) key from unrecorded to recorded. -/
theorem sched_iter_key (cfg : Config) (fetch : FetchEnv) (now : PyDateTime)
    (item : ScheduleItem) (st : AMState) :
    (∃ tl, (sched_iter cfg fetch now item st).1.last_scheduled_alerts =
      st.last_scheduled_alerts ++ tl) ∧
    notifCount (sched_iter cfg fetch now item st).2 +
      (if (now.hhmm, now.date) ∈ st.last_scheduled_alerts then 1 else 0) ≤
      (if (now.hhmm, now.date) ∈
          (sched_iter cfg fetch now item st).1.last_scheduled_alerts then 1
       else 0) := by
  unfold sched_iter
  by_cases ht : item.time = now.hhmm
  · rw [ht, if_pos rfl]
    by_cases hkey : ((now.hhmm, now.date) : SchedKey) ∈ st.last_scheduled_alerts
    · rw [if_pos hkey]
      exact ⟨⟨[], by simp⟩, by simp [notifCount_nil]⟩
    · rw [if_neg hkey]
      refine ⟨⟨[(now.hhmm, now.date)], by simp⟩, ?_⟩
      have h1 := send_watchlist_alert_notifCount cfg fetch item.message st.db
      simp [h1, hkey, List.mem_append]
  · rw [if_neg ht]
    exact ⟨⟨[], by simp⟩, by simp [notifCount_nil]⟩

/-- The rule loop preserves the per-key dispatch bound. -/
theorem sched_loop_key (cfg : Config) (fetch : FetchEnv) (now : PyDateTime) :
    ∀ (items : List ScheduleItem) (st : AMState),
    (∃ tl, (sched_loop cfg fetch now items st).1.last_scheduled_alerts =
      st.last_scheduled_alerts ++ tl) ∧
    notifCount (sched_loop cfg fetch now items st).2 +
      (if (now.hhmm, now.date) ∈ st.last_scheduled_alerts then 1 else 0) ≤
      (if (now.hhmm, now.date) ∈
          (sched_loop cfg fetch now items st).1.last_scheduled_alerts then 1
       else 0)
  | [], st => ⟨⟨[], by simp [sched_loop]⟩, by simp [sched_loop, notifCount_nil]⟩
  | item :: rest, st => by
      obtain ⟨⟨tl1, htl1⟩, h1⟩ := sched_iter_key cfg fetch now item st
      obtain ⟨⟨tl2, htl2⟩, h2⟩ :=
        sched_loop_key cfg fetch now rest (sched_iter cfg fetch now item st).1
      constructor
      · refine ⟨tl1 ++ tl2, ?_⟩
        simp only [sched_loop]
        rw [htl2, htl1, List.append_assoc]
      · simp only [sched_loop, notifCount_append] at *
        omega

/-- One `check_scheduled_alerts` call preserves the per-key dispatch
bound. -/
theorem sched_call_key (cfg : Config) (fetch : FetchEnv) (now : PyDateTime)
    (st : AMState) :
    (∃ tl, (check_scheduled_alerts cfg fetch now st).1.last_scheduled_alerts =
      st.last_scheduled_alerts ++ tl) ∧
    notifCount (check_scheduled_alerts cfg fetch now st).2 +
      (if (now.hhmm, now.date) ∈ st.last_scheduled_alerts then 1 else 0) ≤
      (if (now.hhmm, now.date) ∈
          (check_scheduled_alerts cfg fetch now st).1.last_scheduled_alerts then 1
       else 0) := by
  unfold check_scheduled_alerts
  by_cases hwl : cfg.watchlist = []
  · exact ⟨⟨[], by simp [hwl]⟩, by simp [hwl, notifCount_nil]⟩
  · obtain ⟨⟨tl, htl⟩, h⟩ := sched_loop_key cfg fetch now cfg.alert_schedule st
    exact ⟨⟨tl, by simp [hwl, htl]⟩, by simpa [hwl] using h⟩

/-- Across calls sharing one (clock, date), schedule dispatches are
bounded by the key transition. -/
theorem run_sched_cycles_key (cfg : Config) (T : Nat × Nat) (dd : Nat) :
    ∀ (calls : List (FetchEnv × PyDateTime)) (st : AMState),
    (∀ c ∈ calls, (c.2 : PyDateTime).hhmm = T ∧ c.2.date = dd) →
    notifCount (run_sched_cycles cfg calls st).2.flatten +
      (if (T, dd) ∈ st.last_scheduled_alerts then 1 else 0) ≤
      (if (T, dd) ∈ (run_sched_cycles cfg calls st).1.last_scheduled_alerts then 1
       else 0)
  | [], st, _ => by simp [run_sched_cycles, notifCount_nil]
  | c :: rest, st, h => by
      obtain ⟨hT, hd⟩ := h c (List.mem_cons_self _ _)
      have h1 := (sched_call_key cfg c.1 c.2 st).2
      rw [hT, hd] at h1
      have h2 := run_sched_cycles_key cfg T dd rest
        (check_scheduled_alerts cfg c.1 c.2 st).1
        (fun x hx => h x (List.mem_cons_of_mem _ hx))
      simp only [run_sched_cycles, List.flatten_cons, notifCount_append] at *
      omega

/-- The rule loop is a no-op when every matching rule is already
recorded. -/
theorem sched_loop_noop (cfg : Config) (fetch : FetchEnv) (now : PyDateTime) :
    ∀ (items : List ScheduleItem) (st : AMState),
    (∀ item ∈ items, item.time = now.hhmm →
      (item.time, now.date) ∈ st.last_scheduled_alerts) →
    sched_loop cfg fetch now items st = (st, [])
  | [], _, _ => rfl
  | item :: rest, st, h => by
      have hi : sched_iter cfg fetch now item st = (st, []) := by
        unfold sched_iter
        by_cases ht : item.time = now.hhmm
        · rw [if_pos ht, if_pos (h item (List.mem_cons_self _ _) ht)]
        · rw [if_neg ht]
      have hr := sched_loop_noop cfg fetch now rest st
        (fun i hi2 ht => h i (List.mem_cons_of_mem _ hi2) ht)
      simp [sched_loop, hi, hr]

/-- `check_scheduled_alerts` is a no-op from a `SchedDone` state. -/
theorem check_scheduled_noop (cfg : Config) (fetch : FetchEnv) (now : PyDateTime)
    (st : AMState) (h : SchedDone cfg now.hhmm now.date st) :
    check_scheduled_alerts cfg fetch now st = (st, []) := by
  unfold check_scheduled_alerts
  by_cases hwl : cfg.watchlist = []
  · rw [if_pos hwl]
  · rw [if_neg hwl]
    rcases h with h | h
    · exact absurd h hwl
    · exact sched_loop_noop cfg fetch now _ st h

/-- After the rule loop, every matching rule has its key recorded. -/
theorem sched_loop_records (cfg : Config) (fetch : FetchEnv) (now : PyDateTime) :
    ∀ (items : List ScheduleItem) (st : AMState) (item : ScheduleItem),
    item ∈ items → item.time = now.hhmm →
    (item.time, now.date) ∈ (sched_loop cfg fetch now items st).1.last_scheduled_alerts
  | [], _, item, him, _ => absurd him (List.not_mem_nil _)
  | i :: rest, st, item, him, ht => by
      rcases List.mem_cons.1 him with rfl | hm
      · have h1 : (item.time, now.date) ∈
            (sched_iter cfg fetch now item st).1.last_scheduled_alerts := by
          unfold sched_iter
          rw [if_pos ht]
          by_cases hkey : ((item.time, now.date) : SchedKey) ∈ st.last_scheduled_alerts
          · rw [if_pos hkey]
            exact hkey
          · rw [if_neg hkey]
            simp
        obtain ⟨⟨tl, htl⟩, -⟩ :=
          sched_loop_key cfg fetch now rest (sched_iter cfg fetch now item st).1
        simp only [sched_loop]
        rw [htl]
        exact List.mem_append_left _ h1
      · have hrec := sched_loop_records cfg fetch now rest
          (sched_iter cfg fetch now i st).1 item hm ht
        simpa [sched_loop] using hrec

/-- Any `check_scheduled_alerts` call leaves a `SchedDone` state for its
own (clock, date). -/
theorem check_scheduled_done (cfg : Config) (fetch : FetchEnv) (now : PyDateTime)
    (st : AMState) :
    SchedDone cfg now.hhmm now.date (check_scheduled_alerts cfg fetch now st).1 := by
  by_cases hwl : cfg.watchlist = []
  · exact Or.inl hwl
  · right
    intro item him ht
    unfold check_scheduled_alerts
    rw [if_neg hwl]
    exact sched_loop_records cfg fetch now _ st item him ht

/-- From a `SchedDone` state, further calls in the same (clock, date) do
nothing. -/
theorem run_sched_cycles_done (cfg : Config) (T : Nat × Nat) (dd : Nat) :
    ∀ (calls : List (FetchEnv × PyDateTime)) (st : AMState),
    (∀ c ∈ calls, (c.2 : PyDateTime).hhmm = T ∧ c.2.date = dd) →
    SchedDone cfg T dd st →
    (run_sched_cycles cfg calls st).1 = st ∧
    ∀ tr ∈ (run_sched_cycles cfg calls st).2, tr = []
  | [], st, _, _ => ⟨rfl, by simp [run_sched_cycles]⟩
  | c :: rest, st, h, hdone => by
      obtain ⟨hT, hd⟩ := h c (List.mem_cons_self _ _)
      have hnoop : check_scheduled_alerts cfg c.1 c.2 st = (st, []) :=
        check_scheduled_noop cfg c.1 c.2 st (by rw [hT, hd]; exact hdone)
      have ih := run_sched_cycles_done cfg T dd rest st
        (fun x hx => h x (List.mem_cons_of_mem _ hx)) hdone
      constructor
      · simp [run_sched_cycles, hnoop, ih.1]
      · intro tr htr
        simp only [run_sched_cycles, hnoop] at htr
        rcases List.mem_cons.1 htr with rfl | hm
        · rfl
        · exact ih.2 tr hm

/-- With the key unrecorded and some rule matching, the rule loop
dispatches exactly once. -/
theorem sched_loop_fires (cfg : Config) (fetch : FetchEnv) (now : PyDateTime) :
    ∀ (items : List ScheduleItem) (st : AMState),
    (now.hhmm, now.date) ∉ st.last_scheduled_alerts →
    (∃ i ∈ items, i.time = now.hhmm) →
    notifCount (sched_loop cfg fetch now items st).2 = 1
  | [], _, _, hex => by
      rcases hex with ⟨i, hi, -⟩
      cases hi
  | i :: rest, st, hkey, hex => by
      by_cases ht : i.time = now.hhmm
      · have hit : sched_iter cfg fetch now i st =
            ({ st with
                db := (send_watchlist_alert cfg fetch i.message st.db).1
                last_scheduled_alerts :=
                  st.last_scheduled_alerts ++ [(i.time, now.date)] },
              (send_watchlist_alert cfg fetch i.message st.db).2) := by
          unfold sched_iter
          rw [if_pos ht, if_neg (by rw [ht]; exact hkey)]
        have hmem : ((now.hhmm, now.date) : SchedKey) ∈
            (sched_iter cfg fetch now i st).1.last_scheduled_alerts := by
          rw [hit]
          simp [ht.symm]
        obtain ⟨-, hb⟩ :=
          sched_loop_key cfg fetch now rest (sched_iter cfg fetch now i st).1
        rw [if_pos hmem] at hb
        have hrest0 : notifCount (sched_loop cfg fetch now rest
            (sched_iter cfg fetch now i st).1).2 = 0 := by
          have hle1 : (if (now.hhmm, now.date) ∈ (sched_loop cfg fetch now rest
              (sched_iter cfg fetch now i st).1).1.last_scheduled_alerts
              then 1 else 0) ≤ 1 := by
            split <;> omega
          omega
        have h1 : notifCount (sched_iter cfg fetch now i st).2 = 1 := by
          rw [hit]
          exact send_watchlist_alert_notifCount cfg fetch i.message st.db
        simp only [sched_loop, notifCount_append]
        omega
      · have hit : sched_iter cfg fetch now i st = (st, []) := by
          unfold sched_iter
          rw [if_neg ht]
        have hex2 : ∃ j ∈ rest, j.time = now.hhmm := by
          rcases hex with ⟨j, hj, hjt⟩
          rcases List.mem_cons.1 hj with rfl | hm
          · exact absurd hjt ht
          · exact ⟨j, hm, hjt⟩
        have hrec := sched_loop_fires cfg fetch now rest st hkey hex2
        simp [sched_loop, hit, notifCount_append, notifCount_nil, hrec]

/-- The empty trace has no sleeps. -/
theorem sleepCount_nil : sleepCount ([] : List Event) = 0 := rfl

/-- Sleep counting distributes over trace concatenation. -/
theorem sleepCount_append (a b : List Event) :
    sleepCount (a ++ b) = sleepCount a + sleepCount b :=
  List.countP_append _ _ _

/-- Sleep counting over one prepended event. -/
theorem sleepCount_cons (e : Event) (tr : List Event) :
    sleepCount (e :: tr) =
      sleepCount tr + (match e with | .sleep _ => 1 | _ => 0) := by
  cases e <;> simp [sleepCount, List.countP_cons]

/-- `calculate_price_change` yields a signal whenever some row for the
symbol lies inside the window and no row has price zero. -/
theorem calculate_some_of (db1 : List StockPrice) (s : String) (now : Int)
    (minutes : Nat)
    (hex : ∃ r ∈ db1, r.symbol = s ∧ now - (minutes : Int) * 60 ≤ r.timestamp)
    (hnz : ∀ r ∈ db1, r.price ≠ 0) :
    ∃ pc, calculate_price_change db1 s now minutes = some pc := by
  obtain ⟨r0, hr0, hs0, hts0⟩ := hex
  obtain ⟨l, hl⟩ := latestRecord_exists db1 s r0 hr0 hs0
  obtain ⟨o, ho⟩ := oldestSince_exists db1 s _ r0 hr0 hs0 hts0
  have hos := oldestSince_some_spec db1 s _ o ho
  refine ⟨pyRound2 ((l.price - o.price) / o.price * 100), ?_⟩
  simp only [calculate_price_change, hl, ho]
  rw [if_neg (hnz o hos.1)]

/-- When every symbol fetches successfully with a usable quote and no
hourly dedup suppression applies, the price loop sleeps once per symbol,
including after the last. -/
theorem pca_loop_sleeps (cfg : Config) (fetch : FetchEnv) (now : PyDateTime) :
    ∀ (ws : List String) (d : List StockPrice) (last : List PriceKey),
    ws.Nodup →
    (∀ s ∈ ws, ∃ q, fetch s = some q ∧ q.symbol = s ∧ q.price ≠ 0 ∧
      now.abs - (cfg.price_alerts.check_interval : Int) * 60 ≤ q.timestamp) →
    (∀ r ∈ d, r.price ≠ 0) →
    (∀ s ∈ ws, (s, now.date, now.hour) ∉ last) →
    sleepCount (pca_loop cfg fetch now ws d last).2.2 = ws.length
  | [], _, _, _, _, _, _ => rfl
  | s :: rest, d, last, hnd, hfetch, hold, hkeys => by
      obtain ⟨q, hq, hqs, hqnz, hqts⟩ := hfetch s (List.mem_cons_self _ _)
      have hold1 : ∀ r ∈ save_quote d q, r.price ≠ 0 := by
        intro r hr
        unfold save_quote at hr
        rcases List.mem_append.1 hr with hr | hr
        · exact hold r hr
        · rcases List.mem_singleton.1 hr with rfl
          exact hqnz
      obtain ⟨pc, hpc⟩ := calculate_some_of (save_quote d q) s now.abs
        cfg.price_alerts.check_interval
        ⟨⟨q.symbol, q.price, q.timestamp⟩,
          by unfold save_quote; simp, hqs, hqts⟩
        hold1
      have hkey : ((s, now.date, now.hour) : PriceKey) ∉ last :=
        hkeys s (List.mem_cons_self _ _)
      have hrest : ∀ last2,
          (∀ s2 ∈ rest, (s2, now.date, now.hour) ∉ last2) →
          sleepCount (pca_loop cfg fetch now rest (save_quote d q) last2).2.2 =
            rest.length :=
        fun last2 hk2 =>
          pca_loop_sleeps cfg fetch now rest (save_quote d q) last2
            (List.Nodup.of_cons hnd)
            (fun s2 hs2 => hfetch s2 (List.mem_cons_of_mem _ hs2))
            hold1 hk2
      have hsne : ∀ s2 ∈ rest, s2 ≠ s := by
        intro s2 hs2 hcontra
        subst hcontra
        exact (List.nodup_cons.1 hnd).1 hs2
      by_cases hth : cfg.price_alerts.threshold_percentage ≤ |pc|
      · have hk2 : ∀ s2 ∈ rest,
            ((s2, now.date, now.hour) : PriceKey) ∉ last ++ [(s, now.date, now.hour)] := by
          intro s2 hs2 hmem
          rcases List.mem_append.1 hmem with hmem | hmem
          · exact hkeys s2 (List.mem_cons_of_mem _ hs2) hmem
          · rcases List.mem_singleton.1 hmem with heq
            exact hsne s2 hs2 (congrArg Prod.fst heq)
        simp only [pca_loop, pca_iter, hq, hpc]
        rw [if_pos hth, if_neg hkey]
        simp only [sleepCount_append, sleepCount_cons, sleepCount_nil]
        rw [hrest _ hk2]
        simp [List.length_cons]
        omega
      · have hk2 : ∀ s2 ∈ rest, ((s2, now.date, now.hour) : PriceKey) ∉ last :=
          fun s2 hs2 => hkeys s2 (List.mem_cons_of_mem _ hs2)
        simp only [pca_loop, pca_iter, hq, hpc]
        rw [if_neg hth]
        simp only [sleepCount_append, sleepCount_cons, sleepCount_nil]
        rw [hrest _ hk2]
        simp [List.length_cons]
        omega

/-- The empty trace has no cleanups. -/
theorem cleanupCount_nil : cleanupCount ([] : List Event) = 0 := rfl

/-- Cleanup counting distributes over trace concatenation. -/
theorem cleanupCount_append (a b : List Event) :
    cleanupCount (a ++ b) = cleanupCount a + cleanupCount b :=
  List.countP_append _ _ _

/-- Cleanup counting over one prepended event. -/
theorem cleanupCount_cons (e : Event) (tr : List Event) :
    cleanupCount (e :: tr) =
      cleanupCount tr + (match e with | .cleanup _ => 1 | _ => 0) := by
  cases e <;> simp [cleanupCount, List.countP_cons]

/-- The watchlist fetch loop performs no retention cleanup. -/
theorem send_loop_cleanupCount (cfg : Config) (fetch : FetchEnv) :
    ∀ (ws : List String) (db : Option (List StockPrice)),
    cleanupCount (send_loop cfg fetch ws db).2.1 = 0
  | [], _ => rfl
  | s :: rest, db => by
      have ihs : ∀ d2, cleanupCount (send_loop cfg fetch rest d2).2.1 = 0 :=
        fun d2 => send_loop_cleanupCount cfg fetch rest d2
      have ih0 : ∀ d2, cleanupCount (send_loop cfg fetch [] d2).2.1 = 0 := fun _ => rfl
      unfold send_loop
      cases hq : fetch s with
      | none =>
          by_cases hr : rest = [] <;>
            simp [hq, hr, cleanupCount_cons, cleanupCount_append, cleanupCount_nil,
              ihs, ih0]
      | some q =>
          cases db <;> by_cases hr : rest = [] <;>
            simp [hq, hr, cleanupCount_cons, cleanupCount_append, cleanupCount_nil,
              ihs, ih0]

/-- A schedule-rule iteration performs no retention cleanup. -/
theorem sched_iter_cleanupCount (cfg : Config) (fetch : FetchEnv) (now : PyDateTime)
    (item : ScheduleItem) (st : AMState) :
    cleanupCount (sched_iter cfg fetch now item st).2 = 0 := by
  unfold sched_iter
  by_cases ht : item.time = now.hhmm
  · rw [if_pos ht]
    by_cases hkey : ((item.time, now.date) : SchedKey) ∈ st.last_scheduled_alerts
    · rw [if_pos hkey]
      rfl
    · rw [if_neg hkey]
      show cleanupCount (send_watchlist_alert cfg fetch item.message st.db).2 = 0
      unfold send_watchlist_alert
      rw [cleanupCount_append, send_loop_cleanupCount, cleanupCount_cons]
      rfl
  · rw [if_neg ht]
    rfl

/-- The rule loop performs no retention cleanup. -/
theorem sched_loop_cleanupCount (cfg : Config) (fetch : FetchEnv) (now : PyDateTime) :
    ∀ (items : List ScheduleItem) (st : AMState),
    cleanupCount (sched_loop cfg fetch now items st).2 = 0
  | [], _ => rfl
  | item :: rest, st => by
      have h1 := sched_iter_cleanupCount cfg fetch now item st
      have h2 := sched_loop_cleanupCount cfg fetch now rest
        (sched_iter cfg fetch now item st).1
      simp only [sched_loop, cleanupCount_append]
      omega

/-- Schedule evaluation performs no retention cleanup. -/
theorem check_scheduled_cleanupCount (cfg : Config) (fetch : FetchEnv)
    (now : PyDateTime) (st : AMState) :
    cleanupCount (check_scheduled_alerts cfg fetch now st).2 = 0 := by
  unfold check_scheduled_alerts
  by_cases hwl : cfg.watchlist = []
  · rw [if_pos hwl]
    rfl
  · rw [if_neg hwl]
    exact sched_loop_cleanupCount cfg fetch now cfg.alert_schedule st

/-- A price-loop iteration performs no retention cleanup. -/
theorem pca_iter_cleanupCount (cfg : Config) (fetch : FetchEnv) (now : PyDateTime)
    (s : String) (d : List StockPrice) (last : List PriceKey) :
    cleanupCount (pca_iter cfg fetch now s d last).2.2 = 0 := by
  unfold pca_iter
  cases hq : fetch s with
  | none => rfl
  | some q =>
      cases hc : calculate_price_change (save_quote d q) s now.abs
          cfg.price_alerts.check_interval with
      | none => simp [hc, cleanupCount_cons, cleanupCount_nil]
      | some pc =>
          by_cases hth : cfg.price_alerts.threshold_percentage ≤ |pc|
          · by_cases hkey : ((s, now.date, now.hour) : PriceKey) ∈ last <;>
              simp [hc, hth, hkey, cleanupCount_cons, cleanupCount_append,
                cleanupCount_nil]
          · simp [hc, hth, cleanupCount_cons, cleanupCount_append, cleanupCount_nil]

/-- The price loop performs no retention cleanup. -/
theorem pca_loop_cleanupCount (cfg : Config) (fetch : FetchEnv) (now : PyDateTime) :
    ∀ (ws : List String) (d : List StockPrice) (last : List PriceKey),
    cleanupCount (pca_loop cfg fetch now ws d last).2.2 = 0
  | [], _, _ => rfl
  | s :: rest, d, last => by
      have h1 := pca_iter_cleanupCount cfg fetch now s d last
      have h2 := pca_loop_cleanupCount cfg fetch now rest
        (pca_iter cfg fetch now s d last).1 (pca_iter cfg fetch now s d last).2.1
      simp only [pca_loop, cleanupCount_append]
      omega

/-- Price-delta evaluation performs no retention cleanup. -/
theorem check_price_cleanupCount (cfg : Config) (fetch : FetchEnv)
    (now : PyDateTime) (st : AMState) :
    cleanupCount (check_price_change_alerts cfg fetch now st).2 = 0 := by
  unfold check_price_change_alerts
  cases he : cfg.price_alerts.enabled with
  | false => rfl
  | true =>
      by_cases hwl : cfg.watchlist = []
      · rw [if_neg (fun h => h rfl), if_pos hwl]
        rfl
      · rw [if_neg (fun h => h rfl), if_neg hwl]
        cases hdb : st.db with
        | none => rfl
        | some d =>
            exact pca_loop_cleanupCount cfg fetch now cfg.watchlist d
              st.last_price_alerts

/-- The cleanup step fires exactly when a database is configured and the
local time has hour 0 and minute 0. -/
theorem cleanup_step_count (cfg : Config) (now : PyDateTime) (st : AMState) :
    cleanupCount (cleanup_step cfg now st).2 =
      (if st.db.isSome ∧ now.hour = 0 ∧ now.minute = 0 then 1 else 0) := by
  unfold cleanup_step
  cases hdb : st.db with
  | none => simp [cleanupCount_nil]
  | some d =>
      by_cases hmid : now.hour = 0 ∧ now.minute = 0
      · obtain ⟨h1, h2⟩ := hmid
        simp [h1, h2, cleanupCount_cons, cleanupCount_nil]
      · simp [hmid, cleanupCount_nil]

/-- The fetch loop preserves whether a database is configured. -/
theorem send_loop_db_isSome (cfg : Config) (fetch : FetchEnv) :
    ∀ (ws : List String) (db : Option (List StockPrice)),
    ((send_loop cfg fetch ws db).1).isSome = db.isSome
  | [], _ => rfl
  | s :: rest, db => by
      have ihs : ∀ d2, ((send_loop cfg fetch rest d2).1).isSome = d2.isSome :=
        fun d2 => send_loop_db_isSome cfg fetch rest d2
      have ih0 : ∀ d2 : Option (List StockPrice),
          ((send_loop cfg fetch [] d2).1).isSome = d2.isSome := fun _ => rfl
      unfold send_loop
      cases hq : fetch s with
      | none => by_cases hr : rest = [] <;> simp [hq, hr, ihs, ih0]
      | some q => cases db <;> by_cases hr : rest = [] <;> simp [hq, hr, ihs, ih0]

/-- A schedule-rule iteration preserves database presence. -/
theorem sched_iter_db_isSome (cfg : Config) (fetch : FetchEnv) (now : PyDateTime)
    (item : ScheduleItem) (st : AMState) :
    ((sched_iter cfg fetch now item st).1).db.isSome = st.db.isSome := by
  unfold sched_iter
  by_cases ht : item.time = now.hhmm
  · rw [if_pos ht]
    by_cases hkey : ((item.time, now.date) : SchedKey) ∈ st.last_scheduled_alerts
    · rw [if_pos hkey]
    · rw [if_neg hkey]
      show ((send_watchlist_alert cfg fetch item.message st.db).1).isSome = _
      unfold send_watchlist_alert
      exact send_loop_db_isSome cfg fetch cfg.watchlist st.db
  · rw [if_neg ht]

/-- The rule loop preserves database presence. -/
theorem sched_loop_db_isSome (cfg : Config) (fetch : FetchEnv) (now : PyDateTime) :
    ∀ (items : List ScheduleItem) (st : AMState),
    ((sched_loop cfg fetch now items st).1).db.isSome = st.db.isSome
  | [], _ => rfl
  | item :: rest, st => by
      have h1 := sched_iter_db_isSome cfg fetch now item st
      have h2 := sched_loop_db_isSome cfg fetch now rest
        (sched_iter cfg fetch now item st).1
      simp only [sched_loop]
      rw [h2, h1]

/-- Schedule evaluation preserves database presence. -/
theorem check_scheduled_db_isSome (cfg : Config) (fetch : FetchEnv)
    (now : PyDateTime) (st : AMState) :
    ((check_scheduled_alerts cfg fetch now st).1).db.isSome = st.db.isSome := by
  unfold check_scheduled_alerts
  by_cases hwl : cfg.watchlist = []
  · rw [if_pos hwl]
  · rw [if_neg hwl]
    exact sched_loop_db_isSome cfg fetch now cfg.alert_schedule st

/-- Price-delta evaluation preserves database presence. -/
theorem check_price_db_isSome (cfg : Config) (fetch : FetchEnv)
    (now : PyDateTime) (st : AMState) :
    ((check_price_change_alerts cfg fetch now st).1).db.isSome = st.db.isSome := by
  unfold check_price_change_alerts
  cases he : cfg.price_alerts.enabled with
  | false => rfl
  | true =>
      by_cases hwl : cfg.watchlist = []
      · rw [if_neg (fun h => h rfl), if_pos hwl]
      · rw [if_neg (fun h => h rfl), if_neg hwl]
        cases hdb : st.db with
        | none =>
            show st.db.isSome = Option.isSome none
            rw [hdb]
        | some d => simp

/-- Rounding zero gives zero. -/
theorem pyRound2_zero : pyRound2 0 = 0 := by
  have h := pyRound2_intCast 0
  simpa using h

/-- Saving a quote into a history with no rows for its symbol leaves the
just-saved row as the only row for that symbol. -/
theorem filter_save_quote_single (d : List StockPrice) (q : Quote) (s : String)
    (hempty : ∀ r ∈ d, r.symbol ≠ s) (hqs : q.symbol = s) :
    (save_quote d q).filter (fun r => r.symbol = s) =
      [⟨q.symbol, q.price, q.timestamp⟩] := by
  unfold save_quote
  rw [List.filter_append]
  have h1 : d.filter (fun r => r.symbol = s) = [] := by
    rw [List.filter_eq_nil_iff]
    intro a ha
    simpa using hempty a ha
  rw [h1]
  simp [hqs]

/-- On a symbol's first observation the just-saved row is both latest and
oldest, so the computed change is exactly 0. -/
theorem calc_zero_first (d : List StockPrice) (q : Quote) (s : String)
    (now : Int) (minutes : Nat)
    (hempty : ∀ r ∈ d, r.symbol ≠ s) (hqs : q.symbol = s) (hqnz : q.price ≠ 0)
    (hqts : now - (minutes : Int) * 60 ≤ q.timestamp) :
    calculate_price_change (save_quote d q) s now minutes = some 0 := by
  have hl : latestRecord (save_quote d q) s =
      some ⟨q.symbol, q.price, q.timestamp⟩ := by
    unfold latestRecord
    rw [filter_save_quote_single d q s hempty hqs]
    rfl
  have hfl2 : (save_quote d q).filter
      (fun r => r.symbol = s ∧ now - (minutes : Int) * 60 ≤ r.timestamp) =
      [⟨q.symbol, q.price, q.timestamp⟩] := by
    unfold save_quote
    rw [List.filter_append]
    have h1 : d.filter
        (fun r => r.symbol = s ∧ now - (minutes : Int) * 60 ≤ r.timestamp) = [] := by
      rw [List.filter_eq_nil_iff]
      intro a ha
      simp [hempty a ha]
    rw [h1]
    simp only [List.nil_append, List.filter_cons]
    rw [if_pos (by simp [hqs]; omega)]
    rfl
  have ho : oldestSince (save_quote d q) s (now - (minutes : Int) * 60) =
      some ⟨q.symbol, q.price, q.timestamp⟩ := by
    unfold oldestSince
    rw [hfl2]
    rfl
  simp only [calculate_price_change, hl, ho]
  rw [if_neg hqnz, sub_self, zero_div, zero_mul, pyRound2_zero]

/-- An iteration for another symbol never dispatches for this one. -/
theorem pca_iter_notifsFor_other (cfg : Config) (fetch : FetchEnv)
    (now : PyDateTime) (s s2 : String) (d : List StockPrice)
    (last : List PriceKey) (hne : s2 ≠ s) :
    priceNotifsFor s (pca_iter cfg fetch now s2 d last).2.2 = 0 := by
  unfold pca_iter
  cases hq : fetch s2 with
  | none => simp [priceNotifsFor]
  | some q =>
      cases hc : calculate_price_change (save_quote d q) s2 now.abs
          cfg.price_alerts.check_interval with
      | none => simp [hc, priceNotifsFor]
      | some pc =>
          have hsubj : ¬ ("Price Alert: " ++ s2 = "Price Alert: " ++ s) := by
            rw [string_append_right_inj]
            exact hne
          by_cases hth : cfg.price_alerts.threshold_percentage ≤ |pc|
          · by_cases hkey : ((s2, now.date, now.hour) : PriceKey) ∈ last <;>
              simp [hc, hth, hkey, priceNotifsFor, List.countP_append,
                List.countP_cons, hsubj]
          · simp [hc, hth, priceNotifsFor, List.countP_append, List.countP_cons]

/-- A price-loop iteration leaves the history unchanged or appends the
fetched quote. -/
theorem pca_iter_db_cases (cfg : Config) (fetch : FetchEnv) (now : PyDateTime)
    (s2 : String) (d : List StockPrice) (last : List PriceKey) :
    (pca_iter cfg fetch now s2 d last).1 = d ∨
    ∃ q, fetch s2 = some q ∧ (pca_iter cfg fetch now s2 d last).1 = save_quote d q := by
  unfold pca_iter
  cases hq : fetch s2 with
  | none => exact Or.inl rfl
  | some q =>
      refine Or.inr ⟨q, rfl, ?_⟩
      cases hc : calculate_price_change (save_quote d q) s2 now.abs
          cfg.price_alerts.check_interval with
      | none => simp [hc]
      | some pc =>
          by_cases hth : cfg.price_alerts.threshold_percentage ≤ |pc|
          · by_cases hkey : ((s2, now.date, now.hour) : PriceKey) ∈ last <;>
              simp [hc, hth, hkey]
          · simp [hc, hth]

/-- A price loop over symbols other than `s` never dispatches for `s`. -/
theorem pca_loop_notifsFor_absent (cfg : Config) (fetch : FetchEnv)
    (now : PyDateTime) (s : String) :
    ∀ (ws : List String) (d : List StockPrice) (last : List PriceKey),
    (∀ s2 ∈ ws, s2 ≠ s) →
    priceNotifsFor s (pca_loop cfg fetch now ws d last).2.2 = 0
  | [], _, _, _ => rfl
  | s2 :: rest, d, last, h => by
      have h1 := pca_iter_notifsFor_other cfg fetch now s s2 d last
        (h s2 (List.mem_cons_self _ _))
      have h2 := pca_loop_notifsFor_absent cfg fetch now s rest
        (pca_iter cfg fetch now s2 d last).1 (pca_iter cfg fetch now s2 d last).2.1
        (fun x hx => h x (List.mem_cons_of_mem _ hx))
      simp only [pca_loop, priceNotifsFor, List.countP_append] at *
      omega

/-- A price loop over a history with no rows for `s` never dispatches for
`s` when thresholds are positive and quotes are sane. -/
theorem pca_loop_notifsFor_first (cfg : Config) (fetch : FetchEnv)
    (now : PyDateTime) (s : String) :
    ∀ (ws : List String) (d : List StockPrice) (last : List PriceKey),
    ws.Nodup →
    (∀ s2 ∈ ws, ∀ q, fetch s2 = some q → q.symbol = s2) →
    (∀ r ∈ d, r.symbol ≠ s) →
    (0 : Rat) < cfg.price_alerts.threshold_percentage →
    (∀ q, fetch s = some q → q.price ≠ 0 ∧
      now.abs - (cfg.price_alerts.check_interval : Int) * 60 ≤ q.timestamp) →
    priceNotifsFor s (pca_loop cfg fetch now ws d last).2.2 = 0
  | [], _, _, _, _, _, _, _ => rfl
  | s2 :: rest, d, last, hnd, hsane, hempty, hth, hq => by
      by_cases hs : s2 = s
      · subst hs
        have hiter : priceNotifsFor s2 (pca_iter cfg fetch now s2 d last).2.2 = 0 := by
          unfold pca_iter
          cases hfq : fetch s2 with
          | none => simp [priceNotifsFor]
          | some q =>
              have hqs : q.symbol = s2 := hsane s2 (List.mem_cons_self _ _) q hfq
              obtain ⟨hqnz, hqts⟩ := hq q hfq
              have hzero := calc_zero_first d q s2 now.abs
                cfg.price_alerts.check_interval hempty hqs hqnz hqts
              simp [hzero, priceNotifsFor, abs_zero, not_le.2 hth,
                List.countP_append, List.countP_cons]
        have hrest := pca_loop_notifsFor_absent cfg fetch now s2 rest
          (pca_iter cfg fetch now s2 d last).1 (pca_iter cfg fetch now s2 d last).2.1
          (fun x hx hxx => (List.nodup_cons.1 hnd).1 (hxx ▸ hx))
        simp only [pca_loop, priceNotifsFor, List.countP_append] at *
        omega
      · have h1 := pca_iter_notifsFor_other cfg fetch now s s2 d last hs
        have hempty1 : ∀ r ∈ (pca_iter cfg fetch now s2 d last).1, r.symbol ≠ s := by
          rcases pca_iter_db_cases cfg fetch now s2 d last with hd | ⟨q, hfq, hd⟩
          · rw [hd]
            exact hempty
          · rw [hd]
            intro r hr
            unfold save_quote at hr
            rcases List.mem_append.1 hr with hr | hr
            · exact hempty r hr
            · rcases List.mem_singleton.1 hr with rfl
              show q.symbol ≠ s
              rw [hsane s2 (List.mem_cons_self _ _) q hfq]
              exact hs
        have h2 := pca_loop_notifsFor_first cfg fetch now s rest
          (pca_iter cfg fetch now s2 d last).1 (pca_iter cfg fetch now s2 d last).2.1
          (List.Nodup.of_cons hnd)
          (fun x hx => hsane x (List.mem_cons_of_mem _ hx))
          hempty1 hth hq
        simp only [pca_loop, priceNotifsFor, List.countP_append] at *
        omega

/-! # Theorems -/

/-- C4: with market-hours gating enabled, a cycle evaluated on a weekend,
or on a weekday outside the inclusive `[open, close]` interval, is a
no-op: it returns normally with an empty event trace (zero fetches, zero
persistence writes, zero dispatches) and the state — both dedup maps and
the database — unchanged. -/
theorem market_hours_gating_noop (cfg : Config) (fetch : FetchEnv)
    (now : PyDateTime) (st : AMState)
    (honly : cfg.market_hours.only_during_market_hours = true)
    (hout : 5 ≤ now.weekday ∨
      (now.weekday < 5 ∧
        ¬ (cfg.market_hours.openTod ≤ now.tod ∧ now.tod ≤ cfg.market_hours.closeTod))) :
    run_monitoring_cycle cfg fetch now st = Except.ok (st, []) := by
  have hmh : is_market_hours cfg now = false := by
    unfold is_market_hours
    rcases hout with h | ⟨h1, h2⟩
    · simp [honly, h]
    · simp [honly, Nat.not_le_of_lt h1, h2]
  have hgate : market_gate cfg now = true := by
    unfold market_gate
    simp [honly, hmh]
  unfold run_monitoring_cycle run_monitoring_cycle_generic cycle_body
  simp [hgate]

/-- C4 witness: Saturday 10:00 with gating on, open 09:30, close 16:00. -/
theorem market_hours_gating_noop_witness :
    run_monitoring_cycle cfgGate fetchNone tSaturday10 stEmpty = Except.ok (stEmpty, []) :=
  market_hours_gating_noop cfgGate fetchNone tSaturday10 stEmpty rfl (Or.inl (by decide))

/-- C5: `run_monitoring_cycle` never propagates an exception: for every
behaviour of the schedule, price-delta and cleanup steps, the call
returns normally (`Except.ok`); in particular, when the schedule step
raises, the caller still observes a normal return carrying the state and
events reached before the exception. -/
theorem run_monitoring_cycle_never_propagates (gate : Bool)
    (sched price clean : AMState → StepResult) (st : AMState) :
    (∃ out, run_monitoring_cycle_generic gate sched price clean st = Except.ok out) ∧
    (gate = false → ∀ e, (sched st).exn = some e →
      run_monitoring_cycle_generic gate sched price clean st =
        Except.ok ((sched st).st, (sched st).trace)) := by
  constructor
  · exact ⟨_, rfl⟩
  · intro hgate e hexn
    unfold run_monitoring_cycle_generic cycle_body
    simp [hgate, hexn]

/-- C5 witness: a schedule step that raises is caught and the cycle
returns normally with the pre-exception state. -/
theorem run_monitoring_cycle_never_propagates_witness :
    run_monitoring_cycle_generic false (fun s => ⟨s, [], some "boom"⟩)
      (fun s => ⟨s, [], none⟩) (fun s => ⟨s, [], none⟩) stEmpty =
      Except.ok (stEmpty, []) :=
  (run_monitoring_cycle_never_propagates false (fun s => ⟨s, [], some "boom"⟩)
    (fun s => ⟨s, [], none⟩) (fun s => ⟨s, [], none⟩) stEmpty).2 rfl "boom" rfl

/-- C6 counterexample: on the quote `{symbol: "ABC", price: 10.5, change:
-0.25, change_percent: "-2.3"}` with the detail flags off, the code does
NOT produce the claimed string `"ABC: $10.50 (-$0.25, -2.3%)"` — the
dollar sign in the change field precedes the minus sign, because the
f-string places `$` before `{change:.2f}` and the empty sign prefix. -/
theorem format_stock_message_claim_counterexample :
    format_stock_message cfgPlain qABC true ≠ "ABC: $10.50 (-$0.25, -2.3%)" := by
  rw [format_stock_message_eval]
  decide

/-- C6 amended: the same quote formats to exactly
`"ABC: $10.50 ($-0.25, -2.3%)"`: the `$` comes first and the negative
change carries its own minus sign, the `+` prefix appearing only when
`change ≥ 0`. -/
theorem format_stock_message_actual :
    format_stock_message cfgPlain qABC true = "ABC: $10.50 ($-0.25, -2.3%)" :=
  format_stock_message_eval

/-- C7 counterexample: with both channels enabled and both underlying
sends succeeding, `Notifier.notify` counts 2 successful channels but its
Python return value is `None`, not the integer 2: the function has no
`return` statement. -/
theorem notify_return_counterexample :
    (notify ⟨true, true, true, true⟩).sent_count = 2 ∧
    (notify ⟨true, true, true, true⟩).ret = none ∧
    (notify ⟨true, true, true, true⟩).ret ≠
      some (notify ⟨true, true, true, true⟩).sent_count := by
  decide

/-- C7 amended: `notify` attempts every enabled channel in order (SMS
then email), internally counts the channels that succeeded (0 when all
are disabled or failed), logs the zero-channel warning exactly when that
count is 0, and returns `None` — the count is never returned to the
caller. -/
theorem notify_contract (env : NotifyEnv) :
    (notify env).attempts =
      (if env.sms_enabled then ["sms"] else []) ++
        (if env.email_enabled then ["email"] else []) ∧
    (notify env).sent_count =
      (if env.sms_enabled ∧ env.sms_send then 1 else 0) +
        (if env.email_enabled ∧ env.email_send then 1 else 0) ∧
    ((notify env).warned = true ↔ (notify env).sent_count = 0) ∧
    (notify env).ret = none := by
  obtain ⟨a, b, c, d⟩ := env
  revert a b c d
  decide

/-- C8 counterexample: with the rule enabled, a database configured and a
one-symbol watchlist whose fetch fails, the inter-fetch delay runs zero
times, not once per symbol: the `continue` on fetch failure skips the
trailing sleep. -/
theorem price_delay_count_counterexample :
    cfgA.watchlist.length = 1 ∧
    sleepCount (check_price_change_alerts cfgA fetchNone tMidnightA stDbEmpty).2 = 0 := by
  decide

/-- C9 counterexample: retention cleanup is gated only on
`hour == 0 ∧ minute == 0`; two cycles invoked at 00:00:10 and 00:00:50 of
the same calendar day (the second starting from the state the first
produced) each invoke a cleanup, so cleanup is not restricted to the
first such cycle of the day. -/
theorem cleanup_twice_same_day_counterexample :
    tMidnightA.date = tMidnightB.date ∧
    tMidnightA.hour = 0 ∧ tMidnightA.minute = 0 ∧
    tMidnightB.hour = 0 ∧ tMidnightB.minute = 0 ∧
    tMidnightA ≠ tMidnightB ∧
    run_monitoring_cycle cfgStore fetchNone tMidnightA stDbEmpty =
      Except.ok (stDbEmpty, [Event.cleanup 90]) ∧
    run_monitoring_cycle cfgStore fetchNone tMidnightB stDbEmpty =
      Except.ok (stDbEmpty, [Event.cleanup 90]) :=
  ⟨rfl, rfl, rfl, rfl, rfl, by decide, rfl, rfl⟩

/-- C1: `calculate_price_change` returns the two-decimal rounding of
`(latest.price - oldest.price) / oldest.price * 100`, where `latest` is
the most recently persisted row for the symbol (unfiltered by time) and
`oldest` the earliest persisted row with timestamp at-or-after now minus
the lookback window, and returns `none` when either row is missing or the
oldest price is zero (general part, stated for histories with distinct
timestamps so that "the latest/oldest row" is well defined); concretely,
with quotes at price 100 ten minutes ago and 106 now under a 15-minute
lookback the result is +6.00, which dispatches exactly one alert at
threshold 5.0 and none at threshold 7.0. -/
theorem calculate_price_change_spec :
    (∀ (db : List StockPrice) (s : String) (now : Int) (minutes : Nat),
      (db.filter (fun r => r.symbol = s)).Pairwise
          (fun a b => a.timestamp ≠ b.timestamp) →
      (∀ l o, IsLatestFor db s l →
        IsOldestSince db s (now - (minutes : Int) * 60) o →
        calculate_price_change db s now minutes =
          (if o.price = 0 then none
           else some (pyRound2 ((l.price - o.price) / o.price * 100)))) ∧
      (((¬ ∃ l, IsLatestFor db s l) ∨
          ¬ ∃ o, IsOldestSince db s (now - (minutes : Int) * 60) o) →
        calculate_price_change db s now minutes = none)) ∧
    calculate_price_change (save_quote dbX quoteX) "X" nowX.abs 15 = some 6 ∧
    priceNotifsFor "X" (check_price_change_alerts (cfgX 5) fetchX nowX stX).2 = 1 ∧
    priceNotifsFor "X" (check_price_change_alerts (cfgX 7) fetchX nowX stX).2 = 0 := by
  refine ⟨?_, calcX_eval, pcaX_trace_5, pcaX_trace_7⟩
  intro db s now minutes hp
  constructor
  · intro l o hl ho
    obtain ⟨c, hc⟩ := latestRecord_exists db s l hl.1 hl.2.1
    obtain ⟨oc, hoc⟩ := oldestSince_exists db s _ o ho.1 ho.2.1 ho.2.2.1
    have hcs := latestRecord_some_spec db s c hc
    have hos := oldestSince_some_spec db s _ oc hoc
    have hceq : c = l :=
      eq_of_distinct_ts db s hp c l hcs.1 hcs.2.1 hl.1 hl.2.1
        (le_antisymm (hl.2.2 c hcs.1 hcs.2.1) (hcs.2.2 l hl.1 hl.2.1))
    have hoeq : oc = o :=
      eq_of_distinct_ts db s hp oc o hos.1 hos.2.1 ho.1 ho.2.1
        (le_antisymm (hos.2.2.2 o ho.1 ho.2.1 ho.2.2.1)
          (ho.2.2.2 oc hos.1 hos.2.1 hos.2.2.1))
    rw [hceq] at hc
    rw [hoeq] at hoc
    simp only [calculate_price_change, hc, hoc]
  · intro hne
    rcases hne with h1 | h2
    · have hnone : latestRecord db s = none := by
        cases hopt : latestRecord db s with
        | none => rfl
        | some c => exact absurd ⟨c, latestRecord_some_spec db s c hopt⟩ h1
      simp only [calculate_price_change, hnone]
    · have hnone : oldestSince db s (now - (minutes : Int) * 60) = none := by
        cases hopt : oldestSince db s (now - (minutes : Int) * 60) with
        | none => rfl
        | some c => exact absurd ⟨c, oldestSince_some_spec db s _ c hopt⟩ h2
      cases hopt : latestRecord db s <;>
        simp only [calculate_price_change, hnone, hopt]

/-- C1 witness: the general part applied to the concrete one-row history. -/
theorem calculate_price_change_spec_witness :
    calculate_price_change dbX "X" 0 15 =
      (if (100 : Rat) = 0 then none
       else some (pyRound2 ((100 - 100) / 100 * 100))) :=
  (calculate_price_change_spec.1 dbX "X" 0 15 (by decide)).1
    ⟨"X", 100, 0⟩ ⟨"X", 100, 0⟩ ⟨by decide, rfl, by decide⟩
    ⟨by decide, rfl, by decide, by decide⟩

/-- C2: over every sequence of `check_price_change_alerts` invocations
whose instants share one calendar (date, hour), at most one price-delta
notification is dispatched for a given symbol; and once the dedup key
(symbol, date, hour) is recorded in `last_price_alerts`, no invocation in
that hour dispatches for the symbol at all. -/
theorem price_alert_hourly_dedup (cfg : Config) (s : String) (dd hh : Nat)
    (calls : List (FetchEnv × PyDateTime)) (st : AMState)
    (hsame : ∀ c ∈ calls, (c.2 : PyDateTime).date = dd ∧ c.2.hour = hh) :
    priceNotifsFor s (run_price_cycles cfg calls st).2.flatten +
      (if (s, dd, hh) ∈ st.last_price_alerts then 1 else 0) ≤ 1 ∧
    ((s, dd, hh) ∈ st.last_price_alerts →
      priceNotifsFor s (run_price_cycles cfg calls st).2.flatten = 0) := by
  have haux := run_price_cycles_key cfg s dd hh calls st hsame
  have hle1 :
      (if (s, dd, hh) ∈ (run_price_cycles cfg calls st).1.last_price_alerts then 1
       else 0) ≤ 1 := by
    split <;> omega
  constructor
  · omega
  · intro hmem
    rw [if_pos hmem] at haux
    omega

/-- C2 witness: two consecutive threshold-crossing cycles for "X" within
hour 0 of day 0. -/
theorem price_alert_hourly_dedup_witness :
    priceNotifsFor "X"
        (run_price_cycles (cfgX 5) [(fetchX, nowX), (fetchX, nowX)] stX).2.flatten +
      (if ("X", 0, 0) ∈ stX.last_price_alerts then 1 else 0) ≤ 1 ∧
    (("X", 0, 0) ∈ stX.last_price_alerts →
      priceNotifsFor "X"
        (run_price_cycles (cfgX 5) [(fetchX, nowX), (fetchX, nowX)] stX).2.flatten = 0) :=
  price_alert_hourly_dedup (cfgX 5) "X" 0 0 [(fetchX, nowX), (fetchX, nowX)] stX
    (by intro c hc; rcases List.mem_cons.1 hc with rfl | hc2
        · exact ⟨rfl, rfl⟩
        · rcases List.mem_cons.1 hc2 with rfl | hc3
          · exact ⟨rfl, rfl⟩
          · cases hc3)

/-- C3: over every sequence of `check_scheduled_alerts` invocations whose
instants share one `HH:MM` clock value and one calendar date, at most one
notification is dispatched per (rule time, date); every invocation after
the first produces an empty trace (no fetch, no persistence, no
dispatch); and when the watchlist is nonempty, the key is unrecorded and
some rule matches the clock, the first invocation dispatches exactly one
notification and records the dedup key. -/
theorem scheduled_alert_daily_dedup (cfg : Config) (T : Nat × Nat) (dd : Nat)
    (calls : List (FetchEnv × PyDateTime)) (st : AMState)
    (hsame : ∀ c ∈ calls, (c.2 : PyDateTime).hhmm = T ∧ c.2.date = dd) :
    notifCount (run_sched_cycles cfg calls st).2.flatten +
      (if (T, dd) ∈ st.last_scheduled_alerts then 1 else 0) ≤ 1 ∧
    (∀ tr ∈ (run_sched_cycles cfg calls st).2.drop 1, tr = []) ∧
    (∀ c rest, calls = c :: rest → cfg.watchlist ≠ [] →
      (T, dd) ∉ st.last_scheduled_alerts →
      (∃ i ∈ cfg.alert_schedule, i.time = T) →
      notifCount (check_scheduled_alerts cfg c.1 c.2 st).2 = 1 ∧
      (T, dd) ∈ (check_scheduled_alerts cfg c.1 c.2 st).1.last_scheduled_alerts) := by
  refine ⟨?_, ?_, ?_⟩
  · have haux := run_sched_cycles_key cfg T dd calls st hsame
    have hle1 : (if (T, dd) ∈
        (run_sched_cycles cfg calls st).1.last_scheduled_alerts then 1 else 0) ≤ 1 := by
      split <;> omega
    omega
  · rcases calls with _ | ⟨c, rest⟩
    · simp [run_sched_cycles]
    · obtain ⟨hT, hd⟩ := hsame c (List.mem_cons_self _ _)
      have hdone := check_scheduled_done cfg c.1 c.2 st
      rw [hT, hd] at hdone
      have ht := run_sched_cycles_done cfg T dd rest
        (check_scheduled_alerts cfg c.1 c.2 st).1
        (fun x hx => hsame x (List.mem_cons_of_mem _ hx)) hdone
      intro tr htr
      simp only [run_sched_cycles, List.drop_succ_cons, List.drop_zero] at htr
      exact ht.2 tr htr
  · intro c rest hc hwl hkey hex
    subst hc
    obtain ⟨hT, hd⟩ := hsame c (List.mem_cons_self _ _)
    constructor
    · unfold check_scheduled_alerts
      rw [if_neg hwl]
      refine sched_loop_fires cfg c.1 c.2 cfg.alert_schedule st ?_ ?_
      · rw [hT, hd]
        exact hkey
      · rcases hex with ⟨i, hi, hit⟩
        refine ⟨i, hi, ?_⟩
        rw [hT]
        exact hit
    · have hdone := check_scheduled_done cfg c.1 c.2 st
      rw [hT, hd] at hdone
      rcases hdone with h | h
      · exact absurd h hwl
      · rcases hex with ⟨i, hi, hit⟩
        have hmem := h i hi hit
        rw [hit] at hmem
        exact hmem

/-- C3 witness: two invocations at 00:09 of day 2 against a one-rule
schedule. -/
theorem scheduled_alert_daily_dedup_witness :
    notifCount (run_sched_cycles cfgSched
        [(fetchX, tSched), (fetchX, tSched)] stEmpty).2.flatten +
      (if ((0, 9), 2) ∈ stEmpty.last_scheduled_alerts then 1 else 0) ≤ 1 ∧
    (∀ tr ∈ (run_sched_cycles cfgSched
        [(fetchX, tSched), (fetchX, tSched)] stEmpty).2.drop 1, tr = []) ∧
    (∀ c rest, [(fetchX, tSched), (fetchX, tSched)] = c :: rest →
      cfgSched.watchlist ≠ [] →
      ((0, 9), 2) ∉ stEmpty.last_scheduled_alerts →
      (∃ i ∈ cfgSched.alert_schedule, i.time = (0, 9)) →
      notifCount (check_scheduled_alerts cfgSched c.1 c.2 stEmpty).2 = 1 ∧
      ((0, 9), 2) ∈
        (check_scheduled_alerts cfgSched c.1 c.2 stEmpty).1.last_scheduled_alerts) :=
  scheduled_alert_daily_dedup cfgSched (0, 9) 2
    [(fetchX, tSched), (fetchX, tSched)] stEmpty
    (by
      intro c hc
      rcases List.mem_cons.1 hc with rfl | hc2
      · exact ⟨rfl, rfl⟩
      · rcases List.mem_cons.1 hc2 with rfl | hc3
        · exact ⟨rfl, rfl⟩
        · cases hc3)

/-- C8 amended: the inter-fetch delay runs once for every symbol whose
iteration is not cut short by a `continue`; in particular, when the rule
is enabled, a database is configured, and every watchlist symbol fetches
successfully with a nonzero price, an in-window timestamp and no hourly
dedup suppression, the delay runs exactly `n` times for an `n`-symbol
watchlist, including after the last symbol. -/
theorem price_delay_per_processed_symbol (cfg : Config) (fetch : FetchEnv)
    (now : PyDateTime) (st : AMState) (d0 : List StockPrice)
    (hen : cfg.price_alerts.enabled = true)
    (hdb : st.db = some d0)
    (hnd : cfg.watchlist.Nodup)
    (hfetch : ∀ s ∈ cfg.watchlist, ∃ q, fetch s = some q ∧ q.symbol = s ∧
      q.price ≠ 0 ∧
      now.abs - (cfg.price_alerts.check_interval : Int) * 60 ≤ q.timestamp)
    (hold : ∀ r ∈ d0, r.price ≠ 0)
    (hkeys : ∀ s ∈ cfg.watchlist, (s, now.date, now.hour) ∉ st.last_price_alerts) :
    sleepCount (check_price_change_alerts cfg fetch now st).2 =
      cfg.watchlist.length := by
  unfold check_price_change_alerts
  rw [hen, hdb]
  by_cases hwl : cfg.watchlist = []
  · rw [if_neg (fun h => h rfl), if_pos hwl, hwl]
    rfl
  · rw [if_neg (fun h => h rfl), if_neg hwl]
    exact pca_loop_sleeps cfg fetch now cfg.watchlist d0 st.last_price_alerts
      hnd hfetch hold hkeys

/-- C8 witness: the one-symbol scenario with a successful fetch sleeps
exactly once. -/
theorem price_delay_per_processed_symbol_witness :
    sleepCount (check_price_change_alerts (cfgX 5) fetchX nowX stX).2 =
      (cfgX 5).watchlist.length :=
  price_delay_per_processed_symbol (cfgX 5) fetchX nowX stX dbX rfl rfl
    (by decide)
    (by
      intro s hs
      rcases List.mem_cons.1 hs with rfl | hs2
      · exact ⟨quoteX, rfl, rfl, by decide, by decide⟩
      · cases hs2)
    (by
      intro r hr
      rcases List.mem_cons.1 hr with rfl | hr2
      · decide
      · cases hr2)
    (by
      intro s hs hmem
      cases hmem)

/-- C9 amended: retention cleanup runs in exactly the cycles that pass
the market-hours gate, have a database configured and whose local time
has hour 0 and minute 0 — the code keeps no first-cycle-of-the-day
record, so every such cycle cleans; at most one cleanup per day holds
only because the driver spaces cycles at least 60 seconds apart, which
puts at most one cycle in the 00:00 minute. -/
theorem cleanup_runs_every_midnight_cycle (cfg : Config) (fetch : FetchEnv)
    (now : PyDateTime) (st st2 : AMState) (tr : List Event)
    (h : run_monitoring_cycle cfg fetch now st = Except.ok (st2, tr)) :
    cleanupCount tr =
      (if market_gate cfg now = false ∧ st.db.isSome = true ∧
          now.hour = 0 ∧ now.minute = 0 then 1 else 0) := by
  unfold run_monitoring_cycle run_monitoring_cycle_generic cycle_body liftStep at h
  cases hg : market_gate cfg now with
  | true =>
      rw [hg, if_pos rfl] at h
      simp only [Except.ok.injEq, Prod.mk.injEq] at h
      obtain ⟨rfl, rfl⟩ := h
      simp [hg, cleanupCount_nil]
  | false =>
      rw [hg, if_neg Bool.false_ne_true] at h
      simp only [Except.ok.injEq, Prod.mk.injEq] at h
      obtain ⟨rfl, rfl⟩ := h
      rw [cleanupCount_append, cleanupCount_append, check_scheduled_cleanupCount,
        check_price_cleanupCount, cleanup_step_count]
      have hpres : ((check_price_change_alerts cfg fetch now
          (check_scheduled_alerts cfg fetch now st).1).1).db.isSome =
          st.db.isSome := by
        rw [check_price_db_isSome, check_scheduled_db_isSome]
      rw [hpres]
      simp

/-- C9 witness: a midnight cycle with a configured database cleans
exactly once. -/
theorem cleanup_runs_every_midnight_cycle_witness :
    cleanupCount [Event.cleanup 90] =
      (if market_gate cfgStore tMidnightA = false ∧ stDbEmpty.db.isSome = true ∧
          tMidnightA.hour = 0 ∧ tMidnightA.minute = 0 then 1 else 0) :=
  cleanup_runs_every_midnight_cycle cfgStore fetchNone tMidnightA stDbEmpty
    stDbEmpty [Event.cleanup 90] rfl

/-- C10: for a symbol with no persisted history before the cycle, once
the current quote (with nonzero price and in-window timestamp) is saved,
`calculate_price_change` returns exactly 0, so with any positive
threshold the cycle dispatches no price alert for that symbol on its
first observation. -/
theorem first_observation_no_alert (cfg : Config) (fetch : FetchEnv)
    (now : PyDateTime) (st : AMState) (d0 : List StockPrice) (s : String)
    (hdb : st.db = some d0)
    (hempty : ∀ r ∈ d0, r.symbol ≠ s)
    (hnd : cfg.watchlist.Nodup)
    (hsane : ∀ s2 ∈ cfg.watchlist, ∀ q, fetch s2 = some q → q.symbol = s2)
    (hth : (0 : Rat) < cfg.price_alerts.threshold_percentage)
    (hq : ∀ q, fetch s = some q → q.price ≠ 0 ∧
      now.abs - (cfg.price_alerts.check_interval : Int) * 60 ≤ q.timestamp) :
    priceNotifsFor s (check_price_change_alerts cfg fetch now st).2 = 0 ∧
    (∀ (d : List StockPrice) (q : Quote), (∀ r ∈ d, r.symbol ≠ s) →
      q.symbol = s → q.price ≠ 0 →
      now.abs - (cfg.price_alerts.check_interval : Int) * 60 ≤ q.timestamp →
      calculate_price_change (save_quote d q) s now.abs
        cfg.price_alerts.check_interval = some 0) := by
  constructor
  · unfold check_price_change_alerts
    cases he : cfg.price_alerts.enabled with
    | false => rfl
    | true =>
        by_cases hwl : cfg.watchlist = []
        · rw [if_neg (fun h => h rfl), if_pos hwl]
          rfl
        · rw [if_neg (fun h => h rfl), if_neg hwl, hdb]
          exact pca_loop_notifsFor_first cfg fetch now s cfg.watchlist d0
            st.last_price_alerts hnd hsane hempty hth hq
  · intro d q hd hqs hqnz hqts
    exact calc_zero_first d q s now.abs cfg.price_alerts.check_interval
      hd hqs hqnz hqts

/-- C10 witness: "X" first observed against an empty history triggers no
alert. -/
theorem first_observation_no_alert_witness :
    priceNotifsFor "X" (check_price_change_alerts (cfgX 5) fetchX nowX stDbEmpty).2 = 0 ∧
    (∀ (d : List StockPrice) (q : Quote), (∀ r ∈ d, r.symbol ≠ "X") →
      q.symbol = "X" → q.price ≠ 0 →
      nowX.abs - ((cfgX 5).price_alerts.check_interval : Int) * 60 ≤ q.timestamp →
      calculate_price_change (save_quote d q) "X" nowX.abs
        (cfgX 5).price_alerts.check_interval = some 0) :=
  first_observation_no_alert (cfgX 5) fetchX nowX stDbEmpty [] "X" rfl
    (by intro r hr; cases hr)
    (by decide)
    (by
      intro s2 hs2 q hfq
      rcases List.mem_cons.1 hs2 with rfl | h2
      · simp [fetchX] at hfq
        subst hfq
        rfl
      · cases h2)
    (by decide)
    (by
      intro q hfq
      simp [fetchX] at hfq
      subst hfq
      exact ⟨by decide, by decide⟩)

end StockAlerts
